import Mathlib

/-!
Shallow embedding of the genealogy tree-builder core (src/tree_builder.py and
src/database.py of the tigersan/genealogy repository), together with theorems
settling the specification claims about it.

Modelling conventions:
* The storage collaborator (spec section 1/6 declares durable storage external)
  is modelled as in-memory tables inside a `DB` state record; `session.query`
  style scans return the table lists in insertion order, with ids assigned from
  increasing counters, matching the row-insert semantics of the storage layer.
* Python calendar dates (`datetime.date`) are embedded as a `Date` structure
  with the proleptic-Gregorian ordinal `toOrdinal` (Python's
  `date.toordinal`); `(a - b).days` is `toOrdinal a - toOrdinal b`.
* Python `None` becomes `Option.none`; Python truthiness of strings
  (`not name` is true for both `None` and `""`) is `strTruthy`, truthiness of
  ints (`0` falsy) is `intTruthy`, truthiness of dates is `Option.isSome`.
* Python floats are embedded as exact rationals `ℚ`.
* The external `Levenshtein.distance` C routine is embedded as the textbook
  Levenshtein recurrence, made structurally recursive with a fuel argument
  that always suffices (`fuel = xs.length + ys.length` bounds the recursion
  depth, each step dropping at least one character).
-/

-- Batteries seals the `Rat` arithmetic operations; re-open them so that the
-- kernel-checked `decide` evaluations below can reduce concrete rational
-- arithmetic (the kernel itself ignores reducibility markings).
set_option allowUnsafeReducibility true
attribute [semireducible] Rat.mul Rat.inv Rat.add Rat.sub Rat.div Rat.blt

namespace Genealogy

/-- Python truthiness of an optional string: `None` and `""` are falsy. -/
def strTruthy : Option String → Bool
  | none => false
  | some s => !s.isEmpty

/-- Python truthiness of an optional integer: `None` and `0` are falsy. -/
def intTruthy : Option Int → Bool
  | none => false
  | some v => v != 0

/-- A calendar date, as `datetime.date(year, month, day)`. -/
structure Date where
  year : Int
  month : Int
  day : Int
deriving DecidableEq, Repr

/-- Gregorian leap-year test, as used by `datetime.date`. -/
def isLeapYear (y : Int) : Bool :=
  (y % 4 == 0 && y % 100 != 0) || y % 400 == 0

/-- Number of days in a month of a given year. -/
def daysInMonth (y : Int) (m : Int) : Int :=
  if m = 2 then (if isLeapYear y then 29 else 28)
  else if m = 4 ∨ m = 6 ∨ m = 9 ∨ m = 11 then 30
  else 31

/-- `datetime.date(y, m, d)`: returns `none` exactly when the constructor
would raise `ValueError` (year outside 1..9999, month outside 1..12, or day
outside the month). -/
def mkDate (y m d : Int) : Option Date :=
  if 1 ≤ y ∧ y ≤ 9999 ∧ 1 ≤ m ∧ m ≤ 12 ∧ 1 ≤ d ∧ d ≤ daysInMonth y m then
    some ⟨y, m, d⟩
  else none

/-- Days in the months strictly before month `m` of year `y`. -/
def daysBeforeMonth (y : Int) (m : Int) : Int :=
  (List.range m.toNat).foldl (fun acc i => if i = 0 then acc else acc + daysInMonth y i) 0

/-- Python's `date.toordinal`: day number in the proleptic Gregorian calendar,
with day 1 = January 1 of year 1.  Differences of ordinals are exactly
`(a - b).days`. -/
def toOrdinal (dt : Date) : Int :=
  365 * (dt.year - 1) + (dt.year - 1) / 4 - (dt.year - 1) / 100 + (dt.year - 1) / 400
    + daysBeforeMonth dt.year dt.month + dt.day

/-- Fuel-indexed Levenshtein distance (textbook recurrence of the external
`Levenshtein.distance` routine).  The fuel only serves structural recursion;
`xs.length + ys.length` fuel always suffices because every recursive call
drops at least one character. -/
def levFuel : Nat → List Char → List Char → Nat
  | 0, _, _ => 0
  | _ + 1, [], ys => ys.length
  | _ + 1, x :: xs, [] => (x :: xs).length
  | f + 1, x :: xs, y :: ys =>
    if x = y then levFuel f xs ys
    else 1 + min (levFuel f xs ys) (min (levFuel f (x :: xs) ys) (levFuel f xs (y :: ys)))

/-- Levenshtein edit distance between two character lists. -/
def levDist (xs ys : List Char) : Nat := levFuel (xs.length + ys.length) xs ys

/-- Lower-casing of the characters that occur in the data (ASCII letters and
the Polish diacritic letters handled by `_normalize_name`); embeds Python's
`str.lower` on those characters. -/
def charLower (c : Char) : Char :=
  if c = 'Ą' then 'ą' else if c = 'Ć' then 'ć' else if c = 'Ę' then 'ę'
  else if c = 'Ł' then 'ł' else if c = 'Ń' then 'ń' else if c = 'Ó' then 'ó'
  else if c = 'Ś' then 'ś' else if c = 'Ż' then 'ż' else if c = 'Ź' then 'ź'
  else c.toLower

/-- The Polish-diacritic replacement table of `_normalize_name`. -/
def replaceDiacritic (c : Char) : Char :=
  if c = 'ą' then 'a' else if c = 'ć' then 'c' else if c = 'ę' then 'e'
  else if c = 'ł' then 'l' else if c = 'ń' then 'n' else if c = 'ó' then 'o'
  else if c = 'ś' then 's' else if c = 'ż' then 'z' else if c = 'ź' then 'z'
  else c

/-- `TreeBuilder._normalize_name`: falsy input normalizes to `""`; otherwise
lower-case and strip Polish diacritics (both are per-character maps, applied
in that order). -/
def normalize_name (name : Option String) : String :=
  if !(strTruthy name) then ""
  else String.mk (((name.getD "").data.map charLower).map replaceDiacritic)

/-- The curated diminutive table of `_name_similarity` (verbatim from the
source, including the diacritics inside the diminutive lists). -/
def diminutives : List (String × List String) :=
  [("adam", ["adaś", "adek"]),
   ("jan", ["janek", "jaś", "jasiek"]),
   ("józef", ["józek", "józio"]),
   ("marianna", ["marysia", "maryna", "mania"]),
   ("katarzyna", ["kasia", "kasieńka", "kaśka"]),
   ("anna", ["ania", "anka", "anusia"]),
   ("magdalena", ["magda", "madzia"]),
   ("stanisław", ["staś", "staszek"]),
   ("wacław", ["wacek"]),
   ("zofia", ["zosia", "zośka"])]

/-- Dictionary lookup `diminutives[name]` (`none` when `name` is not a key). -/
def dimLookup (s : String) : Option (List String) :=
  (diminutives.find? (fun kv => kv.1 = s)).map (fun kv => kv.2)

/-- `name2 in diminutives and name1 in diminutives[name2]`. -/
def dimMatch (key other : String) : Bool :=
  match dimLookup key with
  | some l => other ∈ l
  | none => false

/-- `TreeBuilder._name_similarity`: 0 for falsy input, 1 for equal normalized
names, 0.9 for a diminutive-table hit in either direction, otherwise
normalized edit-distance similarity `1 - dist/max_len`. -/
def name_similarity (name1 name2 : Option String) : ℚ :=
  if !(strTruthy name1) || !(strTruthy name2) then 0
  else if normalize_name name1 = normalize_name name2 then 1
  else if dimMatch (normalize_name name1) (normalize_name name2) then 9/10
  else if dimMatch (normalize_name name2) (normalize_name name1) then 9/10
  else if max (normalize_name name1).length (normalize_name name2).length = 0 then 0
  else 1 - (levDist (normalize_name name1).data (normalize_name name2).data : ℚ)
             / ((max (normalize_name name1).length (normalize_name name2).length : Nat) : ℚ)

/-- A person row (`persons` table / `Person` model).  Relationship lists are
not stored on the record; they are computed from the tables on demand, as
`Database.get_person_by_id` does. -/
structure Person where
  id : Nat
  first_name : Option String
  last_name : Option String
  birth_date : Option Date
  death_date : Option Date
  birth_place : Option String
  death_place : Option String
  confidence : ℚ
deriving DecidableEq, Repr

/-- A parent-child edge (`relationships` table / `Relationship` model). -/
structure Relationship where
  id : Nat
  parent_id : Nat
  child_id : Nat
  is_father : Bool
  confidence : ℚ
deriving DecidableEq, Repr

/-- A spouse edge (`marriages` table / `Marriage` model). -/
structure Marriage where
  id : Nat
  person1_id : Nat
  person2_id : Nat
  marriage_date : Option Date
  marriage_place : Option String
  confidence : ℚ
  event_id : Option Nat
deriving DecidableEq, Repr

/-- A birth event row (`birth_events` table).  Archive-only payload fields
(parish, signature, page, position, archive, scan data, raw html) are not
read by any embedded operation and are omitted. -/
structure BirthEvent where
  id : Nat
  day : Option Int
  month : Option Int
  year : Option Int
  first_name : Option String
  last_name : Option String
  location : Option String
  father_first_name : Option String
  mother_first_name : Option String
  mother_maiden_name : Option String
  person_id : Option Nat
deriving DecidableEq, Repr

/-- A death event row (`death_events` table), archive-only fields omitted. -/
structure DeathEvent where
  id : Nat
  day : Option Int
  month : Option Int
  year : Option Int
  first_name : Option String
  last_name : Option String
  age : Option Int
  location : Option String
  about_deceased_and_family : Option String
  person_id : Option Nat
deriving DecidableEq, Repr

/-- A census row (`census_entries` table), archive-only fields omitted. -/
structure CensusEntry where
  id : Nat
  full_name : String
  male_age : Option Int
  female_age : Option Int
  location : Option String
  year : Option Int
  person_id : Option Nat
deriving DecidableEq, Repr

/-- The storage state: the tables of the storage collaborator plus the id
counters it uses to assign fresh primary keys.  Rows are kept in insertion
order and ids are handed out from increasing counters, which is how the
storage layer returns unordered scans. -/
structure DB where
  persons : List Person
  relationships : List Relationship
  marriages : List Marriage
  birthEvents : List BirthEvent
  deathEvents : List DeathEvent
  censusEntries : List CensusEntry
  nextPersonId : Nat
  nextRelationshipId : Nat
  nextMarriageId : Nat
  nextBirthEventId : Nat
  nextDeathEventId : Nat
  nextCensusId : Nat
deriving DecidableEq, Repr

/-- A fresh, empty storage state. -/
def emptyDB : DB := ⟨[], [], [], [], [], [], 1, 1, 1, 1, 1, 1⟩

/-- `Database.get_person_by_id`: first row of the persons table with the
given id, `none` when absent. -/
def get_person_by_id (db : DB) (pid : Nat) : Option Person :=
  db.persons.find? (fun p => p.id == pid)

/-- `Database.add_person`: inserts a fresh person row and returns it. -/
def add_person (db : DB) (first_name last_name : Option String)
    (birth_date death_date : Option Date) (birth_place death_place : Option String)
    (confidence : ℚ) : Person × DB :=
  let p : Person := ⟨db.nextPersonId, first_name, last_name, birth_date, death_date,
                     birth_place, death_place, confidence⟩
  (p, { db with persons := db.persons ++ [p], nextPersonId := db.nextPersonId + 1 })

/-- `Database.add_relationship`: returns the existing row with the same
`(parent_id, child_id)` if one exists, otherwise inserts a fresh row. -/
def add_relationship (db : DB) (parent_id child_id : Nat) (is_father : Bool)
    (confidence : ℚ) : Relationship × DB :=
  match db.relationships.find? (fun r => r.parent_id == parent_id && r.child_id == child_id) with
  | some r => (r, db)
  | none =>
    let r : Relationship := ⟨db.nextRelationshipId, parent_id, child_id, is_father, confidence⟩
    (r, { db with relationships := db.relationships ++ [r],
                  nextRelationshipId := db.nextRelationshipId + 1 })

/-- `Database.add_marriage`: checks for an existing row under *both* person-id
orderings; if either direction matches, returns that row (the
`person1_id = person1_id` direction first, as the source does), otherwise
inserts a fresh row. -/
def add_marriage (db : DB) (person1_id person2_id : Nat) (marriage_date : Option Date)
    (marriage_place : Option String) (confidence : ℚ) (event_id : Option Nat) :
    Marriage × DB :=
  let existing1 := db.marriages.filter (fun m => m.person1_id == person1_id && m.person2_id == person2_id)
  let existing2 := db.marriages.filter (fun m => m.person1_id == person2_id && m.person2_id == person1_id)
  match existing1, existing2 with
  | m :: _, _ => (m, db)
  | [], m :: _ => (m, db)
  | [], [] =>
    let m : Marriage := ⟨db.nextMarriageId, person1_id, person2_id, marriage_date,
                         marriage_place, confidence, event_id⟩
    (m, { db with marriages := db.marriages ++ [m], nextMarriageId := db.nextMarriageId + 1 })

/-- Replace every person row whose id matches `p.id` by `p` (the committed
effect of mutating a loaded person object's fields). -/
def updatePerson (db : DB) (p : Person) : DB :=
  { db with persons := db.persons.map (fun q => if q.id == p.id then p else q) }

/-- Commit `birth_event.person_id = pid` for the stored event row `evId`. -/
def linkBirthEvent (db : DB) (evId : Nat) (pid : Nat) : DB :=
  { db with birthEvents := db.birthEvents.map fun e =>
      if e.id == evId then { e with person_id := some pid } else e }

/-- Commit `death_event.person_id = pid` for the stored event row `evId`. -/
def linkDeathEvent (db : DB) (evId : Nat) (pid : Nat) : DB :=
  { db with deathEvents := db.deathEvents.map fun e =>
      if e.id == evId then { e with person_id := some pid } else e }

/-- A scored candidate, as the `{'person': ..., 'similarity': ...}` dict of
`find_matches_by_name`. -/
structure MatchEntry where
  person : Person
  similarity : ℚ
deriving DecidableEq, Repr

/-- One insertion step of a stable descending sort on the similarity key.
`sortDesc` inserts elements from the right, so everything already in the
list was scanned *after* `m`: `m` skips only strictly larger scores and goes
before any element with an equal score, preserving scan order on ties. -/
def insertDesc (m : MatchEntry) : List MatchEntry → List MatchEntry
  | [] => [m]
  | x :: xs => if x.similarity > m.similarity then x :: insertDesc m xs else m :: x :: xs

/-- Stable sort by descending similarity, embedding Python's stable
`list.sort(key=..., reverse=True)`. -/
def sortDesc : List MatchEntry → List MatchEntry
  | [] => []
  | x :: xs => insertDesc x (sortDesc xs)

/-- The average-similarity score `find_matches_by_name` assigns a person. -/
def avgSim (first_name last_name : Option String) (p : Person) : ℚ :=
  (name_similarity first_name p.first_name + name_similarity last_name p.last_name) / 2

/-- `TreeBuilder.find_matches_by_name`: scan all persons, keep those whose
average of first- and last-name similarity reaches the threshold, sorted by
descending score (stable, so ties keep table order). -/
def find_matches_by_name (db : DB) (first_name last_name : Option String)
    (threshold : ℚ) : List MatchEntry :=
  let ms := db.persons.filterMap (fun p =>
    let avg := avgSim first_name last_name p
    if avg ≥ threshold then some ⟨p, avg⟩ else none)
  sortDesc ms

/-- `month or 1` / `day or 1`: Python `or` falls through to 1 on `None` or 0. -/
def orOne (v : Option Int) : Int :=
  match v with
  | some m => if m = 0 then 1 else m
  | none => 1

/-- The birth date `_create_or_update_person_from_birth` derives from an
event: `date(year, month or 1, day or 1)` when the year is truthy, with a
`ValueError` producing `none`. -/
def impliedBirthDate (ev : BirthEvent) : Option Date :=
  if intTruthy ev.year then mkDate (ev.year.getD 0) (orOne ev.month) (orOne ev.day) else none

/-- The candidate-scan loop of `_create_or_update_person_from_birth`: accept
the first match whose stored birth date is within 30 days of the implied
date (filling a falsy birth place from the event location), or — when the
match has no birth date — whose birth place equals the event location
(filling the birth date).  On acceptance the person row is updated and the
event row is linked to the person. -/
def birthMatchLoop (db : DB) (ev : BirthEvent) (birth_date : Option Date) :
    List MatchEntry → Option (Person × DB)
  | [] => none
  | m :: rest =>
    let person := m.person
    match person.birth_date, birth_date with
    | some pbd, some bd =>
      if (toOrdinal pbd - toOrdinal bd).natAbs ≤ 30 then
        let p' := { person with birth_place :=
          if !(strTruthy person.birth_place) && strTruthy ev.location then ev.location
          else person.birth_place }
        some (p', linkBirthEvent (updatePerson db p') ev.id p'.id)
      else birthMatchLoop db ev birth_date rest
    | _, _ =>
      if !person.birth_date.isSome && person.birth_place == ev.location then
        let p' := { person with birth_date := birth_date }
        some (p', linkBirthEvent (updatePerson db p') ev.id p'.id)
      else birthMatchLoop db ev birth_date rest

/-- `TreeBuilder._create_or_update_person_from_birth`. -/
def create_or_update_person_from_birth (db : DB) (ev : BirthEvent) : Option Person × DB :=
  match ev.person_id with
  | some pid => (get_person_by_id db pid, db)
  | none =>
    let birth_date := impliedBirthDate ev
    let similar := find_matches_by_name db ev.first_name ev.last_name (8/10)
    match birthMatchLoop db ev birth_date similar with
    | some (p, db') => (some p, db')
    | none =>
      let (p, db') := add_person db ev.first_name ev.last_name birth_date none ev.location none 1
      (some p, linkBirthEvent db' ev.id p.id)

/-- The candidate-scan loop of `_create_or_update_person_from_death`.  First
branch: candidate has a birth date and the event implies a birth year within
5 years — accept, overwriting death date and death place from the event.
Otherwise, when the candidate has no death date yet, accept, set the death
fields and fill a missing birth date from the implied birth year. -/
def deathMatchLoop (db : DB) (ev : DeathEvent) (birth_year : Option Int)
    (death_date : Option Date) : List MatchEntry → Option (Person × DB)
  | [] => none
  | m :: rest =>
    let person := m.person
    if person.birth_date.isSome && intTruthy birth_year then
      if ((person.birth_date.getD ⟨1, 1, 1⟩).year - birth_year.getD 0).natAbs ≤ 5 then
        let p' := { person with death_date := death_date, death_place := ev.location }
        some (p', linkDeathEvent (updatePerson db p') ev.id p'.id)
      else deathMatchLoop db ev birth_year death_date rest
    else if !person.death_date.isSome then
      let newBirth :=
        if intTruthy birth_year && !person.birth_date.isSome then
          match mkDate (birth_year.getD 0) 1 1 with
          | some d => some d
          | none => person.birth_date
        else person.birth_date
      let p' := { person with death_date := death_date, death_place := ev.location,
                              birth_date := newBirth }
      some (p', linkDeathEvent (updatePerson db p') ev.id p'.id)
    else deathMatchLoop db ev birth_year death_date rest

/-- `TreeBuilder._create_or_update_person_from_death`. -/
def create_or_update_person_from_death (db : DB) (ev : DeathEvent) : Option Person × DB :=
  match ev.person_id with
  | some pid => (get_person_by_id db pid, db)
  | none =>
    let birth_year : Option Int :=
      if intTruthy ev.age && intTruthy ev.year then some (ev.year.getD 0 - ev.age.getD 0)
      else none
    let death_date : Option Date :=
      if intTruthy ev.year then mkDate (ev.year.getD 0) (orOne ev.month) (orOne ev.day)
      else none
    let similar := find_matches_by_name db ev.first_name ev.last_name (8/10)
    match deathMatchLoop db ev birth_year death_date similar with
    | some (p, db') => (some p, db')
    | none =>
      let birth_date :=
        if intTruthy birth_year then mkDate (birth_year.getD 0) 1 1 else none
      let (p, db') := add_person db ev.first_name ev.last_name birth_date death_date
                        none ev.location 1
      (some p, linkDeathEvent db' ev.id p.id)

/-- A marriage event row (`marriage_events` table), archive-only fields
omitted. -/
structure MarriageEvent where
  id : Nat
  day : Option Int
  month : Option Int
  year : Option Int
  parish : Option String
  groom_first_name : Option String
  groom_last_name : Option String
  groom_location : Option String
  groom_age : Option Int
  bride_first_name : Option String
  bride_last_name : Option String
  bride_location : Option String
  bride_age : Option Int
deriving DecidableEq, Repr

/-- The candidate-scan loop of `_create_or_update_person_from_marriage`:
±5-year birth-year compatibility when both are known; fill a missing birth
date from the implied year; otherwise fall back to place equality. -/
def marriageMatchLoop (db : DB) (birth_year : Option Int) (location : Option String) :
    List MatchEntry → Option (Person × DB)
  | [] => none
  | m :: rest =>
    let person := m.person
    if person.birth_date.isSome && intTruthy birth_year then
      if ((person.birth_date.getD ⟨1, 1, 1⟩).year - birth_year.getD 0).natAbs ≤ 5 then
        some (person, db)
      else marriageMatchLoop db birth_year location rest
    else if !person.birth_date.isSome && intTruthy birth_year then
      match mkDate (birth_year.getD 0) 1 1 with
      | some d =>
        let p' := { person with birth_date := some d }
        some (p', updatePerson db p')
      | none => some (person, db)
    else if person.birth_place == location then some (person, db)
    else marriageMatchLoop db birth_year location rest

/-- `TreeBuilder._create_or_update_person_from_marriage`. -/
def create_or_update_person_from_marriage (db : DB) (ev : MarriageEvent)
    (is_groom : Bool) : Person × DB :=
  let first_name := if is_groom then ev.groom_first_name else ev.bride_first_name
  let last_name := if is_groom then ev.groom_last_name else ev.bride_last_name
  let age := if is_groom then ev.groom_age else ev.bride_age
  let location := if is_groom then ev.groom_location else ev.bride_location
  let birth_year : Option Int :=
    if intTruthy age && intTruthy ev.year then some (ev.year.getD 0 - age.getD 0) else none
  let similar := find_matches_by_name db first_name last_name (8/10)
  match marriageMatchLoop db birth_year location similar with
  | some (p, db') => (p, db')
  | none =>
    let birth_date :=
      if intTruthy birth_year then mkDate (birth_year.getD 0) 1 1 else none
    add_person db first_name last_name birth_date none location none 1

/-- `TreeBuilder._find_or_create_parent`: a father with no surname inherits
the child's; with no surname at all resolution fails; otherwise the first
name-matching candidate whose birth or death place equals the location hint
is returned, else a fresh person is created at that location. -/
def find_or_create_parent (db : DB) (first_name last_name child_last_name : Option String)
    (gender : Char) (location : Option String) : Option Person × DB :=
  let last_name :=
    if gender = 'M' && !(strTruthy last_name) && strTruthy child_last_name then child_last_name
    else last_name
  if !(strTruthy last_name) then (none, db)
  else
    let similar := find_matches_by_name db first_name last_name (8/10)
    match similar.find? (fun m => m.person.birth_place == location
                                  || m.person.death_place == location) with
    | some m => (some m.person, db)
    | none =>
      let (p, db') := add_person db first_name last_name none none location none 1
      (some p, db')

/-- The statistics dictionary `import_scraped_data` returns. -/
structure Stats where
  births_imported : Nat
  deaths_imported : Nat
  marriages_imported : Nat
  census_imported : Nat
  persons_created : Nat
  relationships_created : Nat
  marriages_created : Nat
deriving DecidableEq, Repr

/-- All-zero statistics, the initial dictionary of `import_scraped_data`. -/
def zeroStats : Stats := ⟨0, 0, 0, 0, 0, 0, 0⟩

/-- The raw birth dict handed to `import_scraped_data` (same fields as the
event row, before storage assigns an id). -/
structure BirthInput where
  day : Option Int
  month : Option Int
  year : Option Int
  first_name : Option String
  last_name : Option String
  location : Option String
  father_first_name : Option String
  mother_first_name : Option String
  mother_maiden_name : Option String
deriving DecidableEq, Repr

/-- `Database.add_birth_event`: insert the raw dict as a fresh event row. -/
def add_birth_event (db : DB) (b : BirthInput) : BirthEvent × DB :=
  let ev : BirthEvent := ⟨db.nextBirthEventId, b.day, b.month, b.year, b.first_name,
    b.last_name, b.location, b.father_first_name, b.mother_first_name,
    b.mother_maiden_name, none⟩
  (ev, { db with birthEvents := db.birthEvents ++ [ev],
                 nextBirthEventId := db.nextBirthEventId + 1 })

/-- One iteration of the births loop of `import_scraped_data`
(src/tree_builder.py lines 56-89): persist the event, resolve the child, and
— when parent first names are truthy — resolve each parent and link it with
the appropriate `is_father` flag, counting each created link. -/
def processBirth (db : DB) (stats : Stats) (birth : BirthInput) : DB × Stats :=
  let (ev, db) := add_birth_event db birth
  let stats := { stats with births_imported := stats.births_imported + 1 }
  let (pOpt, db) := create_or_update_person_from_birth db ev
  match pOpt with
  | none => (db, stats)
  | some person =>
    let stats := { stats with persons_created := stats.persons_created + 1 }
    let (db, stats) :=
      if strTruthy birth.father_first_name then
        match find_or_create_parent db birth.father_first_name none birth.last_name 'M'
                birth.location with
        | (some father, db) =>
          let (_, db) := add_relationship db father.id person.id true 1
          (db, { stats with relationships_created := stats.relationships_created + 1 })
        | (none, db) => (db, stats)
      else (db, stats)
    if strTruthy birth.mother_first_name then
      match find_or_create_parent db birth.mother_first_name birth.mother_maiden_name none
              'F' birth.location with
      | (some mother, db) =>
        let (_, db) := add_relationship db mother.id person.id false 1
        (db, { stats with relationships_created := stats.relationships_created + 1 })
      | (none, db) => (db, stats)
    else (db, stats)

/-- The births loop of `import_scraped_data` over a whole batch. -/
def importBirths (db : DB) (stats : Stats) : List BirthInput → DB × Stats
  | [] => (db, stats)
  | b :: rest =>
    let (db', stats') := processBirth db stats b
    importBirths db' stats' rest

/-- The character class `[A-Za-zżźćńółęąśŻŹĆĄŚĘŁÓŃ]` of the census-name
regular expressions. -/
def isNameChar (c : Char) : Bool :=
  (('A' ≤ c && c ≤ 'Z') || ('a' ≤ c && c ≤ 'z')) || c ∈ "żźćńółęąśŻŹĆĄŚĘŁÓŃ".data

/-- Substring containment, as Python's `in` on strings. -/
def containsSub (sub : List Char) : List Char → Bool
  | [] => sub.isEmpty
  | c :: rest => sub.isPrefixOf (c :: rest) || containsSub sub rest

/-- Try to match the pattern `z ([letters]+)` at the start of the list:
a literal `z`, a space, then a greedy non-empty letter run (the capture). -/
def maidenAt : List Char → Option (List Char)
  | 'z' :: ' ' :: c :: rest =>
    if isNameChar c then some (c :: rest.takeWhile isNameChar) else none
  | _ => none

/-- `re.search(r"z ([letters]+)", s)`: leftmost match, greedy capture. -/
def findMaiden : List Char → Option (List Char)
  | [] => none
  | c :: rest =>
    match maidenAt (c :: rest) with
    | some r => some r
    | none => findMaiden rest

/-- Try to match `([letters]+) ([letters]+)` at the start of the list: two
greedy non-empty letter runs separated by one space (no backtracking into a
letter run is possible, so the greedy runs are the match when it exists). -/
def namePairAt : List Char → Option (List Char × List Char)
  | c :: rest =>
    if isNameChar c then
      let run := c :: rest.takeWhile isNameChar
      match rest.drop (run.length - 1) with
      | ' ' :: d :: rest2 =>
        if isNameChar d then some (run, d :: rest2.takeWhile isNameChar) else none
      | _ => none
    else none
  | [] => none

/-- `re.search(r"([letters]+) ([letters]+)", s)`: leftmost match. -/
def findNamePair : List Char → Option (List Char × List Char)
  | [] => none
  | c :: rest =>
    match namePairAt (c :: rest) with
    | some r => some r
    | none => findNamePair rest

/-- The `(first_name, last_name, maiden_name, gender)` tuple
`_parse_census_name` returns.  The function never returns `None`: the
fallback branch returns the whole name as the first name, so the caller's
`if name_parts:` test is always true. -/
structure ParsedName where
  first_name : String
  last_name : Option String
  maiden_name : Option String
  gender : Char
deriving DecidableEq, Repr

/-- `TreeBuilder._parse_census_name`: extract a maiden name via
`z ([letters]+)`, infer gender from relationship words, split the name into
two letter runs, and re-feminize a Polish surname ending in `i` for a female
entry. -/
def parse_census_name (full_name : String) : ParsedName :=
  let chars := full_name.data
  let maiden_name := (findMaiden chars).map (fun l => String.mk l)
  let gender : Char :=
    if containsSub "żona".data chars || containsSub "córka".data chars then 'F'
    else if containsSub "mąż".data chars || containsSub "syn".data chars then 'M'
    else 'U'
  match findNamePair chars with
  | some (fn, ln) =>
    let last_name := String.mk ln
    let last_name :=
      if gender = 'F' && !(last_name.endsWith "a") && last_name.endsWith "i" then
        String.mk (ln.dropLast ++ ['a'])
      else last_name
    ⟨String.mk fn, some last_name, maiden_name, gender⟩
  | none => ⟨full_name, none, maiden_name, gender⟩

/-- The raw census dict handed to `import_scraped_data`. -/
structure CensusInput where
  full_name : String
  male_age : Option Int
  female_age : Option Int
  location : Option String
  year : Option Int
deriving DecidableEq, Repr

/-- `Database.add_census_entry`: insert the raw dict as a fresh row. -/
def add_census_entry (db : DB) (c : CensusInput) : CensusEntry × DB :=
  let entry : CensusEntry := ⟨db.nextCensusId, c.full_name, c.male_age, c.female_age,
    c.location, c.year, none⟩
  (entry, { db with censusEntries := db.censusEntries ++ [entry],
                    nextCensusId := db.nextCensusId + 1 })

/-- One iteration of the census loop of `import_scraped_data`
(src/tree_builder.py lines 197-229).  After persisting the entry, parsing
the name (always truthy) and estimating the birth year, the source calls
`self._find_or_create_person(...)` — but `TreeBuilder` defines no such
method, so every census entry raises `AttributeError` at this point, which
the embedding records as an `Except.error`. -/
def processCensus (db : DB) (stats : Stats) (census : CensusInput) :
    Except String (DB × Stats) :=
  let (_, _db) := add_census_entry db census
  let _stats := { stats with census_imported := stats.census_imported + 1 }
  let nameParts := parse_census_name census.full_name
  let gender := nameParts.gender
  let age : Option Int :=
    if gender = 'M' && intTruthy census.male_age then census.male_age
    else if gender = 'F' && intTruthy census.female_age then census.female_age
    else none
  let _birth_year : Option Int :=
    if intTruthy age && intTruthy census.year then some (census.year.getD 0 - age.getD 0)
    else none
  Except.error "AttributeError: TreeBuilder object has no attribute _find_or_create_person"

/-- The census loop of `import_scraped_data` over a whole batch: the first
entry's `AttributeError` propagates out of the import call, aborting the
remainder of the batch. -/
def importCensus (db : DB) (stats : Stats) : List CensusInput → Except String (DB × Stats)
  | [] => .ok (db, stats)
  | c :: rest =>
    match processCensus db stats c with
    | .error e => .error e
    | .ok (db', stats') => importCensus db' stats' rest

/-- `person.parents`: the relationship rows whose child is this person. -/
def personParents (db : DB) (pid : Nat) : List Relationship :=
  db.relationships.filter (fun r => r.child_id == pid)

/-- `person.children`: the relationship rows whose parent is this person. -/
def personChildren (db : DB) (pid : Nat) : List Relationship :=
  db.relationships.filter (fun r => r.parent_id == pid)

/-- `person.spouses`: the marriage rows referencing this person, those where
it is `person1` first (the order `_get_marriages` produces). -/
def personSpouses (db : DB) (pid : Nat) : List Marriage :=
  db.marriages.filter (fun m => m.person1_id == pid)
    ++ db.marriages.filter (fun m => m.person2_id == pid)

/-- One step of `merge_persons`' parent-relationship loop: copy a
relationship `rel → person2` to `rel → person1` unless that pair exists. -/
def mergeParentStep (person1 : Person) (db : DB) (rel : Relationship) : DB :=
  match db.relationships.find? (fun r => r.parent_id == rel.parent_id
                                          && r.child_id == person1.id) with
  | some _ => db
  | none => (add_relationship db rel.parent_id person1.id rel.is_father rel.confidence).2

/-- One step of `merge_persons`' child-relationship loop. -/
def mergeChildStep (person1 : Person) (db : DB) (rel : Relationship) : DB :=
  match db.relationships.find? (fun r => r.parent_id == person1.id
                                          && r.child_id == rel.child_id) with
  | some _ => db
  | none => (add_relationship db person1.id rel.child_id rel.is_father rel.confidence).2

/-- One step of `merge_persons`' marriage loop: pair `person1` with the
marriage's other participant unless a marriage between them (in either
orientation) exists. -/
def mergeMarriageStep (person1 person2 : Person) (db : DB) (marriage : Marriage) : DB :=
  let other_person_id :=
    if marriage.person1_id != person2.id then marriage.person1_id else marriage.person2_id
  match db.marriages.find? (fun m =>
      (m.person1_id == person1.id && m.person2_id == other_person_id)
      || (m.person1_id == other_person_id && m.person2_id == person1.id)) with
  | some _ => db
  | none => (add_marriage db person1.id other_person_id marriage.marriage_date
               marriage.marriage_place marriage.confidence marriage.event_id).2

/-- The field backfill of `merge_persons`: every falsy birth/death
date/place of `person1` takes `person2`'s value when that one is truthy. -/
def mergeBackfill (person1 person2 : Person) : Person :=
  { person1 with
    birth_date :=
      if !person1.birth_date.isSome && person2.birth_date.isSome then person2.birth_date
      else person1.birth_date,
    birth_place :=
      if !(strTruthy person1.birth_place) && strTruthy person2.birth_place then
        person2.birth_place
      else person1.birth_place,
    death_date :=
      if !person1.death_date.isSome && person2.death_date.isSome then person2.death_date
      else person1.death_date,
    death_place :=
      if !(strTruthy person1.death_place) && strTruthy person2.death_place then
        person2.death_place
      else person1.death_place }

/-- The event re-pointing of `merge_persons`: every birth/death event row of
`person2` gets its person reference set to `person1`. -/
def mergeRepointEvents (db : DB) (person1 person2 : Person) : DB :=
  { db with
    birthEvents := db.birthEvents.map (fun (e : BirthEvent) =>
      if e.person_id == some person2.id then { e with person_id := some person1.id }
      else e),
    deathEvents := db.deathEvents.map (fun (e : DeathEvent) =>
      if e.person_id == some person2.id then { e with person_id := some person1.id }
      else e) }

/-- `session.delete(person2)`: remove the person's row from the table. -/
def deletePersonRow (db : DB) (person2 : Person) : DB :=
  { db with persons := db.persons.filter (fun p => p.id != person2.id) }

/-- `TreeBuilder.merge_persons` (src/tree_builder.py lines 438-530): `none`
when either id is unknown; otherwise backfill `person1`'s falsy
birth/death date/place fields from `person2`, copy `person2`'s
relationships and marriages onto `person1` (skipping duplicates), re-point
`person2`'s birth/death events, delete `person2`'s row and return
`person1`.  The loops run over the lists loaded with `person2` (the
original state); the duplicate checks query the evolving state. -/
def merge_persons (db : DB) (person1_id person2_id : Nat) : Option Person × DB :=
  match get_person_by_id db person1_id, get_person_by_id db person2_id with
  | some person1, some person2 =>
    let person1 := mergeBackfill person1 person2
    let db1 := updatePerson db person1
    let db2 := (personParents db person2.id).foldl (mergeParentStep person1) db1
    let db3 := (personChildren db person2.id).foldl (mergeChildStep person1) db2
    let db4 := (personSpouses db person2.id).foldl (mergeMarriageStep person1 person2) db3
    let db5 := mergeRepointEvents db4 person1 person2
    (some person1, deletePersonRow db5 person2)
  | _, _ => (none, db)

/-- A node of the ephemeral tree dictionaries built by the traversals. -/
structure TreeNode where
  id : Nat
  name : String
  birth_date : Option Date
  death_date : Option Date
  birth_place : Option String
  death_place : Option String
  gender : Char
deriving DecidableEq, Repr

/-- An edge of the ephemeral tree dictionaries. -/
structure TreeEdge where
  source : Nat
  target : Nat
  relationship : String
deriving DecidableEq, Repr

/-- The ephemeral `{'nodes': ..., 'edges': ...}` dictionary. -/
structure Tree where
  nodes : List TreeNode
  edges : List TreeEdge
deriving DecidableEq, Repr

/-- Python string interpolation of an optional value (`None` prints as the
text `None`). -/
def strOfOpt : Option String → String
  | none => "None"
  | some s => s

/-- The node dictionary the traversals append for a person. -/
def mkTreeNode (p : Person) (gender : Char) : TreeNode :=
  ⟨p.id, strOfOpt p.first_name ++ " " ++ strOfOpt p.last_name, p.birth_date,
   p.death_date, p.birth_place, p.death_place, gender⟩

/-- How an embedded traversal can fail: `outOfFuel` marks exhaustion of the
structural-recursion fuel (never reached, see the termination theorems);
`missingPerson` embeds the `AttributeError` Python raises when a
relationship or marriage references a person id with no row. -/
inductive TravErr where
  | outOfFuel
  | missingPerson
deriving DecidableEq, Repr

/-- `person.parents` with each relationship's `parent` person loaded
(`none` when the parent row is missing), as `_get_parent_relationships`. -/
def getParentRelsLoaded (db : DB) (pid : Nat) : List (Relationship × Option Person) :=
  (personParents db pid).map (fun r => (r, db.persons.find? (fun p => p.id == r.parent_id)))

/-- `person.children` with each relationship's `child` person loaded. -/
def getChildRelsLoaded (db : DB) (pid : Nat) : List (Relationship × Option Person) :=
  (personChildren db pid).map (fun r => (r, db.persons.find? (fun p => p.id == r.child_id)))

/-- The `is_other_parent` scan of `_add_ancestors`: walk `person.parents`
until a parent with the sought id is found (`true`), the list ends
(`false`), or an unloaded parent is dereferenced (error). -/
def isOtherParentCheck : List (Relationship × Option Person) → Nat → Except TravErr Bool
  | [], _ => .ok false
  | (_, none) :: _, _ => .error .missingPerson
  | (_, some pp) :: rest, other_id =>
    if pp.id == other_id then .ok true else isOtherParentCheck rest other_id

/-- The spouse loop of `_add_ancestors`: for each marriage of `parent`, skip
the other id when it is another parent of `person`, otherwise add the spouse
node (if new) and the two symmetric spouse edges. -/
def spouseLoopAnc (db : DB) (person : Person) (rel : Relationship) (parentId : Nat) :
    List Marriage → Tree → Except TravErr Tree
  | [], tree => .ok tree
  | marriage :: rest, tree =>
    let other_id :=
      if marriage.person1_id != parentId then marriage.person1_id else marriage.person2_id
    match isOtherParentCheck (getParentRelsLoaded db person.id) other_id with
    | .error e => .error e
    | .ok true => spouseLoopAnc db person rel parentId rest tree
    | .ok false =>
      match get_person_by_id db other_id with
      | none => .error .missingPerson
      | some spouse =>
        let tree :=
          if tree.nodes.any (fun n => n.id == spouse.id) then tree
          else { tree with nodes := tree.nodes
                   ++ [mkTreeNode spouse (if rel.is_father then 'F' else 'M')] }
        let tree := { tree with edges := tree.edges
                        ++ [⟨parentId, spouse.id, "spouse"⟩, ⟨spouse.id, parentId, "spouse"⟩] }
        spouseLoopAnc db person rel parentId rest tree

/-- The parents loop of `_add_ancestors`, parametrized by the recursive
call `recur` on the next generation. -/
def ancestorsRelLoop (db : DB) (person : Person)
    (recur : Person → Tree → Nat → Nat → Except TravErr Tree) :
    List (Relationship × Option Person) → Tree → Nat → Nat → Except TravErr Tree
  | [], tree, _, _ => .ok tree
  | (rel, parentOpt) :: rest, tree, maxGen, curGen =>
    match parentOpt with
    | none => .error .missingPerson
    | some parent =>
      let tree :=
        if tree.nodes.any (fun n => n.id == parent.id) then tree
        else { tree with nodes := tree.nodes
                 ++ [mkTreeNode parent (if rel.is_father then 'M' else 'F')] }
      let tree := { tree with edges := tree.edges ++ [⟨parent.id, person.id, "parent"⟩] }
      match recur parent tree maxGen (curGen + 1) with
      | .error e => .error e
      | .ok tree =>
        match spouseLoopAnc db person rel parent.id (personSpouses db parent.id) tree with
        | .error e => .error e
        | .ok tree => ancestorsRelLoop db person recur rest tree maxGen curGen

/-- `TreeBuilder._add_ancestors` (src/tree_builder.py lines 1139-1222), made
structurally recursive on a fuel argument: each generation step consumes one
unit of fuel, and the generation guard `current_gen >= max_generations`
stops the expansion exactly as in the source. -/
def add_ancestors (db : DB) : Nat → Person → Tree → Nat → Nat → Except TravErr Tree
  | 0, _, _, _, _ => .error .outOfFuel
  | fuel + 1, person, tree, maxGen, curGen =>
    if curGen ≥ maxGen then .ok tree
    else ancestorsRelLoop db person (add_ancestors db fuel)
           (getParentRelsLoaded db person.id) tree maxGen curGen

/-- The other-parents loop of `_add_descendants`: for each parent of the
child other than `person`, add the co-parent node (if new), its parent edge
to the child, and the two symmetric spouse edges with `person`. -/
def descOtherParentsLoop (db : DB) (person child : Person) :
    List (Relationship × Option Person) → Tree → Except TravErr Tree
  | [], tree => .ok tree
  | (child_rel, parentOpt) :: rest, tree =>
    match parentOpt with
    | none => .error .missingPerson
    | some other_parent =>
      if other_parent.id == person.id then descOtherParentsLoop db person child rest tree
      else
        let tree :=
          if tree.nodes.any (fun n => n.id == other_parent.id) then tree
          else { tree with nodes := tree.nodes
                   ++ [mkTreeNode other_parent (if child_rel.is_father then 'M' else 'F')] }
        let tree := { tree with edges := tree.edges
            ++ [⟨other_parent.id, child.id, "parent"⟩,
                ⟨person.id, other_parent.id, "spouse"⟩,
                ⟨other_parent.id, person.id, "spouse"⟩] }
        descOtherParentsLoop db person child rest tree

/-- The children loop of `_add_descendants`, parametrized by the recursive
call on the next generation. -/
def descendantsRelLoop (db : DB) (person : Person)
    (recur : Person → Tree → Nat → Nat → Except TravErr Tree) :
    List (Relationship × Option Person) → Tree → Nat → Nat → Except TravErr Tree
  | [], tree, _, _ => .ok tree
  | (_, childOpt) :: rest, tree, maxGen, curGen =>
    match childOpt with
    | none => .error .missingPerson
    | some child =>
      let tree :=
        if tree.nodes.any (fun n => n.id == child.id) then tree
        else { tree with nodes := tree.nodes ++ [mkTreeNode child 'U'] }
      let tree := { tree with edges := tree.edges ++ [⟨person.id, child.id, "parent"⟩] }
      match descOtherParentsLoop db person child (getParentRelsLoaded db child.id) tree with
      | .error e => .error e
      | .ok tree =>
        match recur child tree maxGen (curGen + 1) with
        | .error e => .error e
        | .ok tree => descendantsRelLoop db person recur rest tree maxGen curGen

/-- `TreeBuilder._add_descendants` (src/tree_builder.py lines 1224-1302),
fuel-indexed in the same way as `add_ancestors`. -/
def add_descendants (db : DB) : Nat → Person → Tree → Nat → Nat → Except TravErr Tree
  | 0, _, _, _, _ => .error .outOfFuel
  | fuel + 1, person, tree, maxGen, curGen =>
    if curGen ≥ maxGen then .ok tree
    else descendantsRelLoop db person (add_descendants db fuel)
           (getChildRelsLoaded db person.id) tree maxGen curGen

/-! ### Helper lemmas -/

theorem levFuel_symm : ∀ (f : Nat) (xs ys : List Char), levFuel f xs ys = levFuel f ys xs := by
  intro f
  induction f with
  | zero => intro xs ys; rfl
  | succ f ih =>
    intro xs ys
    match xs, ys with
    | [], [] => rfl
    | [], _ :: _ => rfl
    | _ :: _, [] => rfl
    | x :: xs, y :: ys =>
      simp only [levFuel]
      by_cases h : x = y
      · subst h
        simp only [if_pos rfl]
        exact ih xs ys
      · rw [if_neg h, if_neg (Ne.symm h), ih xs ys, ih (x :: xs) ys, ih xs (y :: ys)]
        omega

theorem levDist_symm (xs ys : List Char) : levDist xs ys = levDist ys xs := by
  unfold levDist
  rw [Nat.add_comm]
  exact levFuel_symm _ _ _

/-! ### C5 -/

/-- C5: for every pair of name strings `a` and `b` (including null and
empty strings), `similarity(a, b)` equals `similarity(b, a)`: every branch
of `_name_similarity` — the falsy guard, the exact-match test, the
two-directional diminutive lookup, and the normalized edit distance — is
invariant under swapping the arguments. -/
theorem C5_similarity_symmetric (a b : Option String) :
    name_similarity a b = name_similarity b a := by
  unfold name_similarity
  rw [show (!(strTruthy b) || !(strTruthy a)) = (!(strTruthy a) || !(strTruthy b)) from
    Bool.or_comm _ _]
  by_cases hc : (!(strTruthy a) || !(strTruthy b)) = true
  · rw [if_pos hc, if_pos hc]
  · rw [if_neg hc, if_neg hc]
    by_cases h : normalize_name a = normalize_name b
    · rw [if_pos h, if_pos h.symm]
    · rw [if_neg h, if_neg (Ne.symm h)]
      by_cases h1 : dimMatch (normalize_name a) (normalize_name b) = true
      · by_cases h2 : dimMatch (normalize_name b) (normalize_name a) = true
        · rw [if_pos h1, if_pos h2]
        · rw [if_pos h1, if_neg h2, if_pos h1]
      · by_cases h2 : dimMatch (normalize_name b) (normalize_name a) = true
        · rw [if_neg h1, if_pos h2, if_pos h2]
        · rw [if_neg h1, if_neg h2, if_neg h2, if_neg h1,
              show max (normalize_name b).length (normalize_name a).length
                 = max (normalize_name a).length (normalize_name b).length from
                Nat.max_comm _ _,
              levDist_symm (normalize_name b).data (normalize_name a).data]

/-! ### C2 -/

/-- Whether a marriage row stores the unordered pair `{a, b}` (in either
orientation). -/
def pairMatches (a b : Nat) (m : Marriage) : Bool :=
  (m.person1_id == a && m.person2_id == b) || (m.person1_id == b && m.person2_id == a)

/-- Number of marriage rows storing the unordered pair `{a, b}`. -/
def pairCount (db : DB) (a b : Nat) : Nat :=
  (db.marriages.filter (pairMatches a b)).length

/-- C2: starting from a store with no marriage for the unordered pair
`{p1, p2}`, adding the pair and then adding it again — with the two persons
passed in either order — leaves the second call returning the row the first
call created, changing nothing, and the store holds exactly one marriage row
for the pair. -/
theorem C2_marriage_link_idempotent (db : DB) (p1 p2 q1 q2 : Nat) (d d' : Option Date)
    (pl pl' : Option String) (c c' : ℚ) (e e' : Option Nat)
    (horder : (q1 = p1 ∧ q2 = p2) ∨ (q1 = p2 ∧ q2 = p1))
    (hnone : pairCount db p1 p2 = 0) :
    (add_marriage (add_marriage db p1 p2 d pl c e).2 q1 q2 d' pl' c' e').2
        = (add_marriage db p1 p2 d pl c e).2
      ∧ (add_marriage (add_marriage db p1 p2 d pl c e).2 q1 q2 d' pl' c' e').1
        = (add_marriage db p1 p2 d pl c e).1
      ∧ pairCount (add_marriage db p1 p2 d pl c e).2 p1 p2 = 1 := by
  have hnil : ∀ m ∈ db.marriages, ¬(pairMatches p1 p2 m = true) := by
    intro m hm
    have hlen : db.marriages.filter (pairMatches p1 p2) = [] :=
      List.length_eq_zero.mp hnone
    exact List.filter_eq_nil_iff.mp hlen m hm
  have h12 : db.marriages.filter (fun m => m.person1_id == p1 && m.person2_id == p2) = [] := by
    refine List.filter_eq_nil_iff.mpr (fun m hm hcontra => hnil m hm ?_)
    simp only [pairMatches, Bool.or_eq_true]
    exact Or.inl hcontra
  have h21 : db.marriages.filter (fun m => m.person1_id == p2 && m.person2_id == p1) = [] := by
    refine List.filter_eq_nil_iff.mpr (fun m hm hcontra => hnil m hm ?_)
    simp only [pairMatches, Bool.or_eq_true]
    exact Or.inr hcontra
  have hfirst : add_marriage db p1 p2 d pl c e =
      (⟨db.nextMarriageId, p1, p2, d, pl, c, e⟩,
       { db with marriages := db.marriages ++ [⟨db.nextMarriageId, p1, p2, d, pl, c, e⟩],
                 nextMarriageId := db.nextMarriageId + 1 }) := by
    unfold add_marriage
    rw [h12, h21]
  rw [hfirst]
  have hsecond : add_marriage
      { db with marriages := db.marriages ++ [⟨db.nextMarriageId, p1, p2, d, pl, c, e⟩],
                nextMarriageId := db.nextMarriageId + 1 } q1 q2 d' pl' c' e'
      = (⟨db.nextMarriageId, p1, p2, d, pl, c, e⟩,
         { db with marriages := db.marriages ++ [⟨db.nextMarriageId, p1, p2, d, pl, c, e⟩],
                   nextMarriageId := db.nextMarriageId + 1 }) := by
    rcases horder with ⟨hq1, hq2⟩ | ⟨hq1, hq2⟩ <;> rw [hq1, hq2]
    · unfold add_marriage
      rw [List.filter_append, h12]
      simp
    · unfold add_marriage
      rw [List.filter_append, List.filter_append, h12, h21]
      by_cases hpq : p1 = p2
      · subst hpq
        simp
      · have hfa : List.filter (fun (m : Marriage) => m.person1_id == p2 && m.person2_id == p1)
            [⟨db.nextMarriageId, p1, p2, d, pl, c, e⟩] = [] := by
          simp only [List.filter_cons, List.filter_nil]
          rw [if_neg]
          simp only [Bool.and_eq_true, beq_iff_eq]
          exact fun hcontra => hpq hcontra.1
        rw [hfa]
        simp
  rw [hsecond]
  refine ⟨rfl, rfl, ?_⟩
  unfold pairCount
  simp only [List.filter_append]
  rw [List.length_eq_zero.mp hnone]
  simp [pairMatches]

/-- Witness for C2: concrete run from the empty store, adding the pair
`{1, 2}` as `(1, 2)` and then as `(2, 1)`. -/
theorem C2_marriage_link_idempotent_witness :
    (((2:Nat) = 1 ∧ (1:Nat) = 2) ∨ ((2:Nat) = 2 ∧ (1:Nat) = 1))
      ∧ pairCount emptyDB 1 2 = 0
      ∧ ((add_marriage (add_marriage emptyDB 1 2 none none 1 none).2 2 1 none none 1 none).2
           = (add_marriage emptyDB 1 2 none none 1 none).2
         ∧ (add_marriage (add_marriage emptyDB 1 2 none none 1 none).2 2 1 none none 1 none).1
           = (add_marriage emptyDB 1 2 none none 1 none).1
         ∧ pairCount (add_marriage emptyDB 1 2 none none 1 none).2 1 2 = 1) :=
  ⟨Or.inr ⟨rfl, rfl⟩, by decide,
   C2_marriage_link_idempotent emptyDB 1 2 2 1 none none none none 1 1 none none
     (Or.inr ⟨rfl, rfl⟩) (by decide)⟩

/-! ### C4 -/

/-- The single census entry of the C4 failing input: a resolvable name and
age, imported into an empty store. -/
def censusSample : CensusInput := ⟨"Jan Kowalski", some 30, none, some "Kowale", some 1880⟩

/-- C4 (code bug): every batch containing a census entry makes the import
call raise.  The census loop parses the name and estimates the birth year,
but then invokes `self._find_or_create_person(...)`, a method `TreeBuilder`
never defines, so the first census entry raises `AttributeError` and aborts
the whole batch — the import neither resolves the person at confidence 0.8
nor skips the record. -/
theorem C4_census_import_raises (db : DB) (stats : Stats) (c : CensusInput)
    (rest : List CensusInput) :
    importCensus db stats (c :: rest)
      = Except.error "AttributeError: TreeBuilder object has no attribute _find_or_create_person" :=
  rfl

/-! ### C6 -/

/-- The birth event of the C6 scenario: Jan Kowalski, 1850, father Adam,
all other fields null. -/
def janKowalskiBirth : BirthInput :=
  ⟨none, none, some 1850, some "Jan", some "Kowalski", none, some "Adam", none, none⟩

/-- Counterexample to C6: importing the scenario batch into an empty store
reports `persons_created = 1`, not 2 — the father created during parent
resolution is never counted by the importer. -/
theorem C6_counterexample :
    ¬ ((importBirths emptyDB zeroStats [janKowalskiBirth]).2.persons_created = 2) := by
  decide

/-- C6 (amended): importing the scenario batch into an empty store reports
1 birth imported, 1 person created (only the child is counted; the father
resolved via the parent-lookup path is not), and 1 relationship created;
that relationship has `is_father = true` and links the father — stored as a
second person row with the child's surname — to the child. -/
theorem C6_amended_import_stats :
    (importBirths emptyDB zeroStats [janKowalskiBirth]).2 = ⟨1, 0, 0, 0, 1, 1, 0⟩
      ∧ (importBirths emptyDB zeroStats [janKowalskiBirth]).1.relationships
        = [⟨1, 2, 1, true, 1⟩]
      ∧ (importBirths emptyDB zeroStats [janKowalskiBirth]).1.persons.map
          (fun p => (p.id, p.first_name, p.last_name))
        = [(1, some "Jan", some "Kowalski"), (2, some "Adam", some "Kowalski")] := by
  decide

/-! ### C10 -/

/-- C10: a self-merge is not rejected.  `merge(k, k)` resolves both sides to
the same row, the backfill and edge-copy loops find nothing to do, and the
final delete removes the row with id `k`, so the call returns the original
person record while a subsequent lookup of `k` finds nothing. -/
theorem C10_self_merge_deletes (db : DB) (k : Nat) (p : Person)
    (h : get_person_by_id db k = some p) :
    (merge_persons db k k).1 = some p
      ∧ get_person_by_id (merge_persons db k k).2 k = none
      ∧ ∀ q ∈ (merge_persons db k k).2.persons, q.id ≠ k := by
  have hk : p.id = k := by
    have := List.find?_some h
    simpa using this
  unfold merge_persons
  rw [h]
  have hback : mergeBackfill p p = p := by
    cases p
    simp [mergeBackfill]
  simp only [hback, deletePersonRow]
  refine ⟨trivial, ?_, ?_⟩
  · unfold get_person_by_id
    refine List.find?_eq_none.mpr (fun q hq => ?_)
    have hmem := (List.mem_filter.mp hq).2
    simp only [bne_iff_ne, ne_eq] at hmem
    simp only [beq_iff_eq, hk]
    exact fun hcontra => hmem (hcontra.trans hk.symm)
  · intro q hq
    have hmem := (List.mem_filter.mp hq).2
    simp only [bne_iff_ne, ne_eq] at hmem
    exact fun hcontra => hmem (hcontra.trans hk.symm)

/-- Witness for C10: a one-person store; merging id 1 into itself returns
the record and deletes the row. -/
theorem C10_self_merge_deletes_witness :
    get_person_by_id ⟨[⟨1, some "Jan", some "Kowalski", none, none, none, none, 1⟩],
        [], [], [], [], [], 2, 1, 1, 1, 1, 1⟩ 1
      = some ⟨1, some "Jan", some "Kowalski", none, none, none, none, 1⟩
    ∧ ((merge_persons ⟨[⟨1, some "Jan", some "Kowalski", none, none, none, none, 1⟩],
          [], [], [], [], [], 2, 1, 1, 1, 1, 1⟩ 1 1).1
        = some ⟨1, some "Jan", some "Kowalski", none, none, none, none, 1⟩
      ∧ get_person_by_id (merge_persons ⟨[⟨1, some "Jan", some "Kowalski", none, none, none,
          none, 1⟩], [], [], [], [], [], 2, 1, 1, 1, 1, 1⟩ 1 1).2 1 = none
      ∧ ∀ q ∈ (merge_persons ⟨[⟨1, some "Jan", some "Kowalski", none, none, none, none, 1⟩],
          [], [], [], [], [], 2, 1, 1, 1, 1, 1⟩ 1 1).2.persons, q.id ≠ 1) :=
  ⟨rfl, C10_self_merge_deletes _ 1 _ rfl⟩

/-! ### C3 -/

theorem name_similarity_self (s : String) (hs : ¬s.isEmpty = true) :
    name_similarity (some s) (some s) = 1 := by
  unfold name_similarity
  rw [if_neg, if_pos rfl]
  simp [strTruthy, hs]

/-- The first resolution step of the C3 scenario: resolving a fresh birth
event against the empty population creates person 1 carrying the implied
date. -/
theorem C3_first_resolution (e1 : BirthEvent) (d1 : Date)
    (h1p : e1.person_id = none) (h1d : impliedBirthDate e1 = some d1) :
    create_or_update_person_from_birth emptyDB e1
      = (some ⟨1, e1.first_name, e1.last_name, some d1, none, e1.location, none, 1⟩,
         ⟨[⟨1, e1.first_name, e1.last_name, some d1, none, e1.location, none, 1⟩],
          [], [], [], [], [], 2, 1, 1, 1, 1, 1⟩) := by
  unfold create_or_update_person_from_birth
  rw [h1p, h1d]
  simp [find_matches_by_name, emptyDB, sortDesc, birthMatchLoop, add_person, linkBirthEvent]

/-- C3: two birth events with the same non-empty first and last names,
resolved in sequence against an initially empty population.  When the two
implied dates are 10 days apart the second event resolves to the person the
first created (same id); when they are 40 days apart the 30-day window
rejects the candidate and a second, distinct person is created. -/
theorem C3_birth_resolution_date_window (f l : String)
    (hf : ¬f.isEmpty = true) (hl : ¬l.isEmpty = true)
    (e1 e2 : BirthEvent) (d1 d2 : Date)
    (h1n : e1.first_name = some f) (h1l : e1.last_name = some l)
    (h1p : e1.person_id = none) (h1d : impliedBirthDate e1 = some d1)
    (h2n : e2.first_name = some f) (h2l : e2.last_name = some l)
    (h2p : e2.person_id = none) (h2d : impliedBirthDate e2 = some d2) :
    ((toOrdinal d1 - toOrdinal d2).natAbs = 10 →
      ∃ p q, (create_or_update_person_from_birth emptyDB e1).1 = some p
        ∧ (create_or_update_person_from_birth
            (create_or_update_person_from_birth emptyDB e1).2 e2).1 = some q
        ∧ q.id = p.id)
    ∧ ((toOrdinal d1 - toOrdinal d2).natAbs = 40 →
      ∃ p q, (create_or_update_person_from_birth emptyDB e1).1 = some p
        ∧ (create_or_update_person_from_birth
            (create_or_update_person_from_birth emptyDB e1).2 e2).1 = some q
        ∧ q.id ≠ p.id) := by
  have hr1 := C3_first_resolution e1 d1 h1p h1d
  rw [h1n, h1l] at hr1
  rw [hr1]
  have hmatch : find_matches_by_name
      (⟨[⟨1, some f, some l, some d1, none, e1.location, none, 1⟩],
        [], [], [], [], [], 2, 1, 1, 1, 1, 1⟩ : DB) e2.first_name e2.last_name (8/10)
      = [⟨⟨1, some f, some l, some d1, none, e1.location, none, 1⟩, (1 + 1) / 2⟩] := by
    unfold find_matches_by_name
    rw [h2n, h2l]
    simp only [List.filterMap]
    rw [show avgSim (some f) (some l) ⟨1, some f, some l, some d1, none, e1.location, none, 1⟩
          = (1 + 1) / 2 by
        unfold avgSim
        rw [name_similarity_self f hf, name_similarity_self l hl]]
    rw [if_pos (by norm_num)]
    rfl
  constructor
  · intro hdiff
    simp only [create_or_update_person_from_birth, h2p, h2d, hmatch, birthMatchLoop, hdiff]
    rw [if_pos (show (10:Nat) ≤ 30 by norm_num)]
    exact ⟨_, _, rfl, rfl, rfl⟩
  · intro hdiff
    simp only [create_or_update_person_from_birth, h2p, h2d, hmatch, birthMatchLoop, hdiff]
    rw [if_neg (show ¬((40:Nat) ≤ 30) by norm_num)]
    refine ⟨_, _, rfl, rfl, ?_⟩
    simp [add_person]

/-- First birth event of the C3 witness: Jan Kowalski, 1 January 1850. -/
def birthEventJanA : BirthEvent :=
  ⟨1, some 1, some 1, some 1850, some "Jan", some "Kowalski", none, none, none, none, none⟩

/-- Second birth event of the C3 witness: Jan Kowalski, 11 January 1850
(10 days after the first). -/
def birthEventJanB : BirthEvent :=
  ⟨2, some 11, some 1, some 1850, some "Jan", some "Kowalski", none, none, none, none, none⟩

/-- Witness for C3: the concrete pair of events 10 days apart. -/
theorem C3_birth_resolution_date_window_witness :
    (¬"Jan".isEmpty = true) ∧ (¬"Kowalski".isEmpty = true)
      ∧ impliedBirthDate birthEventJanA = some ⟨1850, 1, 1⟩
      ∧ impliedBirthDate birthEventJanB = some ⟨1850, 1, 11⟩
      ∧ (toOrdinal ⟨1850, 1, 1⟩ - toOrdinal ⟨1850, 1, 11⟩).natAbs = 10
      ∧ (((toOrdinal (⟨1850, 1, 1⟩ : Date) - toOrdinal (⟨1850, 1, 11⟩ : Date)).natAbs = 10 →
          ∃ p q, (create_or_update_person_from_birth emptyDB birthEventJanA).1 = some p
            ∧ (create_or_update_person_from_birth
                (create_or_update_person_from_birth emptyDB birthEventJanA).2
                birthEventJanB).1 = some q
            ∧ q.id = p.id)
        ∧ ((toOrdinal (⟨1850, 1, 1⟩ : Date) - toOrdinal (⟨1850, 1, 11⟩ : Date)).natAbs = 40 →
          ∃ p q, (create_or_update_person_from_birth emptyDB birthEventJanA).1 = some p
            ∧ (create_or_update_person_from_birth
                (create_or_update_person_from_birth emptyDB birthEventJanA).2
                birthEventJanB).1 = some q
            ∧ q.id ≠ p.id)) :=
  ⟨by decide, by decide, by decide, by decide, by decide,
   C3_birth_resolution_date_window "Jan" "Kowalski" (by decide) (by decide)
     birthEventJanA birthEventJanB ⟨1850, 1, 1⟩ ⟨1850, 1, 11⟩
     rfl rfl rfl (by decide) rfl rfl rfl (by decide)⟩

/-! ### C7 -/

/-- The order `find_matches_by_name` is claimed to produce: strictly larger
score first, ties resolved by the smaller person id. -/
def scoreOrd (a b : MatchEntry) : Prop :=
  a.similarity > b.similarity ∨ (a.similarity = b.similarity ∧ a.person.id < b.person.id)

theorem mem_insertDesc {a m : MatchEntry} {l : List MatchEntry} :
    a ∈ insertDesc m l ↔ a = m ∨ a ∈ l := by
  induction l with
  | nil => simp [insertDesc]
  | cons x xs ih =>
    unfold insertDesc
    by_cases h : x.similarity > m.similarity
    · rw [if_pos h]
      simp only [List.mem_cons, ih]
      tauto
    · rw [if_neg h]
      simp only [List.mem_cons]

theorem mem_sortDesc {a : MatchEntry} {l : List MatchEntry} :
    a ∈ sortDesc l ↔ a ∈ l := by
  induction l with
  | nil => simp [sortDesc]
  | cons x xs ih =>
    unfold sortDesc
    rw [mem_insertDesc, ih, List.mem_cons]

theorem insertDesc_pairwise {m : MatchEntry} {l : List MatchEntry}
    (hl : l.Pairwise scoreOrd) (hm : ∀ y ∈ l, m.person.id < y.person.id) :
    (insertDesc m l).Pairwise scoreOrd := by
  induction l with
  | nil => simp [insertDesc]
  | cons x xs ih =>
    rw [List.pairwise_cons] at hl
    unfold insertDesc
    by_cases h : x.similarity > m.similarity
    · rw [if_pos h]
      rw [List.pairwise_cons]
      refine ⟨?_, ih hl.2 (fun y hy => hm y (List.mem_cons_of_mem x hy))⟩
      intro z hz
      rcases mem_insertDesc.mp hz with hz | hz
      · subst hz
        exact Or.inl h
      · exact hl.1 z hz
    · rw [if_neg h]
      rw [List.pairwise_cons]
      constructor
      · intro z hz
        rcases List.mem_cons.mp hz with hz | hz
        · subst hz
          rcases lt_or_eq_of_le (le_of_not_lt h) with hlt | heq
          · exact Or.inl hlt
          · exact Or.inr ⟨heq.symm, hm z (List.mem_cons_self z xs)⟩
        · have hxz := hl.1 z hz
          rcases hxz with hxz | hxz
          · rcases lt_or_eq_of_le (le_of_not_lt h) with hlt | heq
            · exact Or.inl (lt_trans hxz hlt)
            · exact Or.inl (by rw [← heq]; exact hxz)
          · rcases lt_or_eq_of_le (le_of_not_lt h) with hlt | heq
            · exact Or.inl (by rw [← hxz.1]; exact hlt)
            · exact Or.inr ⟨heq.symm.trans hxz.1, hm z (List.mem_cons_of_mem x hz)⟩
      · rw [List.pairwise_cons]
        exact hl

theorem sortDesc_pairwise {l : List MatchEntry}
    (hids : l.Pairwise (fun a b => a.person.id < b.person.id)) :
    (sortDesc l).Pairwise scoreOrd := by
  induction l with
  | nil => simp [sortDesc]
  | cons x xs ih =>
    rw [List.pairwise_cons] at hids
    unfold sortDesc
    exact insertDesc_pairwise (ih hids.2)
      (fun y hy => hids.1 y (mem_sortDesc.mp hy))

/-- C7: on a store whose person table is in increasing-id order (ids are
assigned from an increasing counter), `find_matches_by_name` returns
(1) exactly the persons whose average first/last-name similarity reaches the
threshold, (2) each paired with that average as its recorded score, and
(3) in an order where a strictly larger score comes first and equal scores
are resolved in favor of the smaller person id. -/
theorem C7_find_matches_exact_sorted (db : DB) (first_name last_name : Option String)
    (threshold : ℚ) (hids : db.persons.Pairwise (fun a b => a.id < b.id)) :
    (∀ p : Person, (∃ e ∈ find_matches_by_name db first_name last_name threshold,
        e.person = p) ↔ (p ∈ db.persons ∧ avgSim first_name last_name p ≥ threshold))
    ∧ (∀ e ∈ find_matches_by_name db first_name last_name threshold,
        e.similarity = avgSim first_name last_name e.person)
    ∧ (find_matches_by_name db first_name last_name threshold).Pairwise scoreOrd := by
  refine ⟨?_, ?_, ?_⟩
  · intro p
    constructor
    · rintro ⟨e, he, rfl⟩
      rw [find_matches_by_name] at he
      have he' := mem_sortDesc.mp he
      rcases List.mem_filterMap.mp he' with ⟨q, hq, hfq⟩
      by_cases hth : avgSim first_name last_name q ≥ threshold
      · rw [if_pos hth] at hfq
        cases hfq
        exact ⟨hq, hth⟩
      · rw [if_neg hth] at hfq
        cases hfq
    · rintro ⟨hp, hth⟩
      refine ⟨⟨p, avgSim first_name last_name p⟩, ?_, rfl⟩
      rw [find_matches_by_name]
      refine mem_sortDesc.mpr (List.mem_filterMap.mpr ⟨p, hp, ?_⟩)
      rw [if_pos hth]
  · intro e he
    rw [find_matches_by_name] at he
    rcases List.mem_filterMap.mp (mem_sortDesc.mp he) with ⟨q, _, hfq⟩
    by_cases hth : avgSim first_name last_name q ≥ threshold
    · rw [if_pos hth] at hfq
      cases hfq
      rfl
    · rw [if_neg hth] at hfq
      cases hfq
  · rw [find_matches_by_name]
    refine sortDesc_pairwise ?_
    have : ∀ (l : List Person), l.Pairwise (fun a b => a.id < b.id) →
        (l.filterMap (fun p =>
          let avg := avgSim first_name last_name p
          if avg ≥ threshold then some (⟨p, avg⟩ : MatchEntry) else none)).Pairwise
          (fun a b => a.person.id < b.person.id) := by
      intro l hl
      induction l with
      | nil => simp
      | cons x xs ih =>
        rw [List.pairwise_cons] at hl
        rw [List.filterMap_cons]
        by_cases hth : avgSim first_name last_name x ≥ threshold
        · simp only [if_pos hth]
          rw [List.pairwise_cons]
          refine ⟨?_, ih hl.2⟩
          intro e he
          rcases List.mem_filterMap.mp he with ⟨q, hq, hfq⟩
          by_cases hth' : avgSim first_name last_name q ≥ threshold
          · rw [if_pos hth'] at hfq
            cases hfq
            exact hl.1 q hq
          · rw [if_neg hth'] at hfq
            cases hfq
        · simp only [if_neg hth]
          exact ih hl.2
    exact this db.persons hids

/-- Witness for C7: a two-person store with identical names; both tie at
score 1 against the query, and the lower id precedes. -/
theorem C7_find_matches_exact_sorted_witness :
    (([⟨1, some "Jan", some "Kowalski", none, none, none, none, 1⟩,
       ⟨2, some "Jan", some "Kowalski", none, none, none, none, 1⟩] : List Person).Pairwise
        (fun a b => a.id < b.id))
    ∧ ((∀ p : Person, (∃ e ∈ find_matches_by_name ⟨[⟨1, some "Jan", some "Kowalski", none,
          none, none, none, 1⟩, ⟨2, some "Jan", some "Kowalski", none, none, none, none, 1⟩],
          [], [], [], [], [], 3, 1, 1, 1, 1, 1⟩ (some "Jan") (some "Kowalski") (8/10),
          e.person = p)
        ↔ (p ∈ ([⟨1, some "Jan", some "Kowalski", none, none, none, none, 1⟩,
                 ⟨2, some "Jan", some "Kowalski", none, none, none, none, 1⟩] : List Person)
           ∧ avgSim (some "Jan") (some "Kowalski") p ≥ 8/10))
      ∧ (∀ e ∈ find_matches_by_name ⟨[⟨1, some "Jan", some "Kowalski", none, none, none,
            none, 1⟩, ⟨2, some "Jan", some "Kowalski", none, none, none, none, 1⟩],
            [], [], [], [], [], 3, 1, 1, 1, 1, 1⟩ (some "Jan") (some "Kowalski") (8/10),
          e.similarity = avgSim (some "Jan") (some "Kowalski") e.person)
      ∧ (find_matches_by_name ⟨[⟨1, some "Jan", some "Kowalski", none, none, none, none, 1⟩,
          ⟨2, some "Jan", some "Kowalski", none, none, none, none, 1⟩],
          [], [], [], [], [], 3, 1, 1, 1, 1, 1⟩ (some "Jan") (some "Kowalski")
          (8/10)).Pairwise scoreOrd) :=
  ⟨by decide,
   C7_find_matches_exact_sorted ⟨[⟨1, some "Jan", some "Kowalski", none, none, none, none, 1⟩,
     ⟨2, some "Jan", some "Kowalski", none, none, none, none, 1⟩],
     [], [], [], [], [], 3, 1, 1, 1, 1, 1⟩ (some "Jan") (some "Kowalski") (8/10) (by decide)⟩

/-! ### C8 -/

/-- "Only null fields may be filled": `q` agrees with `p` on id, names and
confidence, and keeps every present (truthy) date/place field of `p`. -/
def EnrichesOnly (p q : Person) : Prop :=
  q.id = p.id ∧ q.first_name = p.first_name ∧ q.last_name = p.last_name
    ∧ (p.birth_date.isSome = true → q.birth_date = p.birth_date)
    ∧ (strTruthy p.birth_place = true → q.birth_place = p.birth_place)
    ∧ (p.death_date.isSome = true → q.death_date = p.death_date)
    ∧ (strTruthy p.death_place = true → q.death_place = p.death_place)
    ∧ q.confidence = p.confidence

/-- What the death-resolution path actually guarantees: identity, names,
confidence and birth fields survive (a present birth date is never
overwritten, the birth place is untouched), but the death fields carry no
guarantee — they are set from the event. -/
def PreservesIdentityAndBirth (p q : Person) : Prop :=
  q.id = p.id ∧ q.first_name = p.first_name ∧ q.last_name = p.last_name
    ∧ (p.birth_date.isSome = true → q.birth_date = p.birth_date)
    ∧ q.birth_place = p.birth_place
    ∧ q.confidence = p.confidence

theorem enrichesOnly_refl (p : Person) : EnrichesOnly p p :=
  ⟨rfl, rfl, rfl, fun _ => rfl, fun _ => rfl, fun _ => rfl, fun _ => rfl, rfl⟩

theorem preservesIdentityAndBirth_refl (p : Person) : PreservesIdentityAndBirth p p :=
  ⟨rfl, rfl, rfl, fun _ => rfl, rfl, rfl⟩

theorem pairwise_id_inj {l : List Person}
    (h : l.Pairwise (fun a b => a.id < b.id)) :
    ∀ {a b : Person}, a ∈ l → b ∈ l → a.id = b.id → a = b := by
  induction l with
  | nil => intro a b ha; cases ha
  | cons x xs ih =>
    rw [List.pairwise_cons] at h
    intro a b ha hb hid
    rcases List.mem_cons.mp ha with h1 | h1
    · rcases List.mem_cons.mp hb with h2 | h2
      · rw [h1, h2]
      · subst h1
        exact absurd hid (Nat.ne_of_lt (h.1 b h2))
    · rcases List.mem_cons.mp hb with h2 | h2
      · subst h2
        exact absurd hid.symm (Nat.ne_of_lt (h.1 a h1))
      · exact ih h.2 h1 h2 hid

theorem find_matches_person_mem {db : DB} {f l : Option String} {t : ℚ} {e : MatchEntry}
    (he : e ∈ find_matches_by_name db f l t) : e.person ∈ db.persons := by
  rw [find_matches_by_name] at he
  rcases List.mem_filterMap.mp (mem_sortDesc.mp he) with ⟨q, hq, hfq⟩
  by_cases hth : avgSim f l q ≥ t
  · rw [if_pos hth] at hfq
    cases hfq
    exact hq
  · rw [if_neg hth] at hfq
    cases hfq

/-- Frame lemma for the committed person mutation: if the updated row `p'`
relates to the original candidate row by `Pred`, the whole table satisfies
the per-row existential frame property. -/
theorem updatePerson_frame (Pred : Person → Person → Prop) (hrefl : ∀ p, Pred p p)
    (db : DB) (cand p' : Person) (hid : p'.id = cand.id) (hcand : cand ∈ db.persons)
    (hids : db.persons.Pairwise (fun a b => a.id < b.id)) (hPred : Pred cand p')
    (p : Person) (hp : p ∈ db.persons) :
    ∃ q ∈ (updatePerson db p').persons, Pred p q := by
  have himg := List.mem_map_of_mem (fun q => if q.id == p'.id then p' else q) hp
  by_cases hpc : p.id = p'.id
  · have hpcand : p = cand := pairwise_id_inj hids hp hcand (by rw [hpc, hid])
    refine ⟨p', ?_, hpcand ▸ hPred⟩
    unfold updatePerson
    have hb : (p.id == p'.id) = true := by simpa using hpc
    simpa [hb] using himg
  · refine ⟨p, ?_, hrefl p⟩
    unfold updatePerson
    have hb : (p.id == p'.id) = false := by simpa using hpc
    simpa [hb] using himg

/-- The birth-resolution candidate loop either rejects every candidate or
commits an `EnrichesOnly` update of one of the scanned persons. -/
theorem birthMatchLoop_frame (db : DB) (ev : BirthEvent) (bd : Option Date) :
    ∀ (ms : List MatchEntry) (p' : Person) (db' : DB),
      birthMatchLoop db ev bd ms = some (p', db') →
      ∃ cand, (∃ m ∈ ms, m.person = cand) ∧ EnrichesOnly cand p'
        ∧ db'.persons = (updatePerson db p').persons := by
  intro ms
  induction ms with
  | nil => intro p' db' h; cases h
  | cons m rest ih =>
    intro p' db' h
    simp only [birthMatchLoop] at h
    split at h
    · -- both dates present: 30-day window branch
      split at h
      · simp only [Option.some.injEq, Prod.mk.injEq] at h
        obtain ⟨rfl, rfl⟩ := h
        refine ⟨m.person, ⟨m, List.mem_cons_self m rest, rfl⟩, ?_, rfl⟩
        refine ⟨rfl, rfl, rfl, fun _ => rfl, ?_, fun _ => rfl, fun _ => rfl, rfl⟩
        intro hs
        simp [hs]
      · rcases ih p' db' h with ⟨cand, ⟨m', hm', rfl⟩, hen, hdb⟩
        exact ⟨m'.person, ⟨m', List.mem_cons_of_mem m hm', rfl⟩, hen, hdb⟩
    · -- fallthrough arm: no-birth-date-and-matching-place branch
      split at h
      · next hguard =>
        simp only [Bool.and_eq_true, Bool.not_eq_true'] at hguard
        simp only [Option.some.injEq, Prod.mk.injEq] at h
        obtain ⟨rfl, rfl⟩ := h
        refine ⟨m.person, ⟨m, List.mem_cons_self m rest, rfl⟩, ?_, rfl⟩
        refine ⟨rfl, rfl, rfl, ?_, fun _ => rfl, fun _ => rfl, fun _ => rfl, rfl⟩
        intro hs
        rw [hguard.1] at hs
        cases hs
      · rcases ih p' db' h with ⟨cand, ⟨m', hm', rfl⟩, hen, hdb⟩
        exact ⟨m'.person, ⟨m', List.mem_cons_of_mem m hm', rfl⟩, hen, hdb⟩

/-- The death-resolution candidate loop either rejects every candidate or
commits an update of a scanned person that preserves identity, confidence
and birth fields (the death fields are set from the event). -/
theorem deathMatchLoop_frame (db : DB) (ev : DeathEvent) (byr : Option Int)
    (dd : Option Date) :
    ∀ (ms : List MatchEntry) (p' : Person) (db' : DB),
      deathMatchLoop db ev byr dd ms = some (p', db') →
      ∃ cand, (∃ m ∈ ms, m.person = cand) ∧ PreservesIdentityAndBirth cand p'
        ∧ db'.persons = (updatePerson db p').persons := by
  intro ms
  induction ms with
  | nil => intro p' db' h; cases h
  | cons m rest ih =>
    intro p' db' h
    simp only [deathMatchLoop] at h
    split at h
    · split at h
      · simp only [Option.some.injEq, Prod.mk.injEq] at h
        obtain ⟨rfl, rfl⟩ := h
        exact ⟨m.person, ⟨m, List.mem_cons_self m rest, rfl⟩,
               ⟨rfl, rfl, rfl, fun _ => rfl, rfl, rfl⟩, rfl⟩
      · rcases ih p' db' h with ⟨cand, ⟨m', hm', rfl⟩, hen, hdb⟩
        exact ⟨m'.person, ⟨m', List.mem_cons_of_mem m hm', rfl⟩, hen, hdb⟩
    · split at h
      · simp only [Option.some.injEq, Prod.mk.injEq] at h
        obtain ⟨rfl, rfl⟩ := h
        refine ⟨m.person, ⟨m, List.mem_cons_self m rest, rfl⟩,
                ⟨rfl, rfl, rfl, ?_, rfl, rfl⟩, rfl⟩
        intro hs
        simp [hs]
      · rcases ih p' db' h with ⟨cand, ⟨m', hm', rfl⟩, hen, hdb⟩
        exact ⟨m'.person, ⟨m', List.mem_cons_of_mem m hm', rfl⟩, hen, hdb⟩

/-- The marriage-resolution candidate loop returns a scanned person either
unchanged, or with a previously-null birth date filled in, leaving the rest
of the row intact. -/
theorem marriageMatchLoop_frame (db : DB) (byr : Option Int) (loc : Option String) :
    ∀ (ms : List MatchEntry) (p' : Person) (db' : DB),
      marriageMatchLoop db byr loc ms = some (p', db') →
      ∃ cand, (∃ m ∈ ms, m.person = cand) ∧ EnrichesOnly cand p'
        ∧ (db'.persons = db.persons ∨ db'.persons = (updatePerson db p').persons) := by
  intro ms
  induction ms with
  | nil => intro p' db' h; cases h
  | cons m rest ih =>
    intro p' db' h
    simp only [marriageMatchLoop] at h
    split at h
    · split at h
      · simp only [Option.some.injEq, Prod.mk.injEq] at h
        obtain ⟨rfl, rfl⟩ := h
        exact ⟨m.person, ⟨m, List.mem_cons_self m rest, rfl⟩,
               enrichesOnly_refl m.person, Or.inl rfl⟩
      · rcases ih p' db' h with ⟨cand, ⟨m', hm', rfl⟩, hen, hdb⟩
        exact ⟨m'.person, ⟨m', List.mem_cons_of_mem m hm', rfl⟩, hen, hdb⟩
    · split at h
      · next hguard =>
        simp only [Bool.and_eq_true, Bool.not_eq_true'] at hguard
        split at h
        · simp only [Option.some.injEq, Prod.mk.injEq] at h
          obtain ⟨rfl, rfl⟩ := h
          refine ⟨m.person, ⟨m, List.mem_cons_self m rest, rfl⟩,
                  ⟨rfl, rfl, rfl, ?_, fun _ => rfl, fun _ => rfl, fun _ => rfl, rfl⟩,
                  Or.inr rfl⟩
          intro hs
          rw [hguard.1] at hs
          cases hs
        · simp only [Option.some.injEq, Prod.mk.injEq] at h
          obtain ⟨rfl, rfl⟩ := h
          exact ⟨m.person, ⟨m, List.mem_cons_self m rest, rfl⟩,
                 enrichesOnly_refl m.person, Or.inl rfl⟩
      · split at h
        · simp only [Option.some.injEq, Prod.mk.injEq] at h
          obtain ⟨rfl, rfl⟩ := h
          exact ⟨m.person, ⟨m, List.mem_cons_self m rest, rfl⟩,
                 enrichesOnly_refl m.person, Or.inl rfl⟩
        · rcases ih p' db' h with ⟨cand, ⟨m', hm', rfl⟩, hen, hdb⟩
          exact ⟨m'.person, ⟨m', List.mem_cons_of_mem m hm', rfl⟩, hen, hdb⟩

/-- Frame property of birth resolution: every pre-existing person row
survives with only null fields possibly filled. -/
theorem birth_resolution_frame (db : DB) (ev : BirthEvent)
    (hids : db.persons.Pairwise (fun a b => a.id < b.id)) :
    ∀ p ∈ db.persons,
      ∃ q ∈ (create_or_update_person_from_birth db ev).2.persons, EnrichesOnly p q := by
  intro p hp
  simp only [create_or_update_person_from_birth]
  cases hpid : ev.person_id with
  | some pid => exact ⟨p, hp, enrichesOnly_refl p⟩
  | none =>
    cases hloop : birthMatchLoop db ev (impliedBirthDate ev)
        (find_matches_by_name db ev.first_name ev.last_name (8/10)) with
    | some pr =>
      rcases birthMatchLoop_frame db ev (impliedBirthDate ev) _ pr.1 pr.2
          (by rw [hloop]) with ⟨cand, ⟨m', hm', hcand⟩, hen, hdb⟩
      have hcmem : cand ∈ db.persons := hcand ▸ find_matches_person_mem hm'
      have hres := updatePerson_frame EnrichesOnly enrichesOnly_refl db cand pr.1 hen.1
        hcmem hids hen p hp
      simpa [hdb] using hres
    | none =>
      refine ⟨p, ?_, enrichesOnly_refl p⟩
      simp only [add_person, linkBirthEvent]
      exact List.mem_append_left _ hp

/-- Frame property of death resolution: every pre-existing person row keeps
its identity, confidence and birth fields (death fields come from the
event on the accepted candidate). -/
theorem death_resolution_frame (db : DB) (ev : DeathEvent)
    (hids : db.persons.Pairwise (fun a b => a.id < b.id)) :
    ∀ p ∈ db.persons,
      ∃ q ∈ (create_or_update_person_from_death db ev).2.persons,
        PreservesIdentityAndBirth p q := by
  intro p hp
  simp only [create_or_update_person_from_death]
  cases hpid : ev.person_id with
  | some pid => exact ⟨p, hp, preservesIdentityAndBirth_refl p⟩
  | none =>
    cases hloop : deathMatchLoop db ev
        (if (intTruthy ev.age && intTruthy ev.year) = true
         then some (ev.year.getD 0 - ev.age.getD 0) else none)
        (if intTruthy ev.year = true
         then mkDate (ev.year.getD 0) (orOne ev.month) (orOne ev.day) else none)
        (find_matches_by_name db ev.first_name ev.last_name (8/10)) with
    | some pr =>
      rcases deathMatchLoop_frame db ev _ _ _ pr.1 pr.2 (by rw [hloop]) with
        ⟨cand, ⟨m', hm', hcand⟩, hen, hdb⟩
      have hcmem : cand ∈ db.persons := hcand ▸ find_matches_person_mem hm'
      have hres := updatePerson_frame PreservesIdentityAndBirth
        preservesIdentityAndBirth_refl db cand pr.1 hen.1 hcmem hids hen p hp
      simpa [hdb] using hres
    | none =>
      refine ⟨p, ?_, preservesIdentityAndBirth_refl p⟩
      simp only [add_person, linkDeathEvent]
      exact List.mem_append_left _ hp

/-- Frame property of marriage resolution: every pre-existing person row
survives with only a null birth date possibly filled. -/
theorem marriage_resolution_frame (db : DB) (ev : MarriageEvent) (is_groom : Bool)
    (hids : db.persons.Pairwise (fun a b => a.id < b.id)) :
    ∀ p ∈ db.persons,
      ∃ q ∈ (create_or_update_person_from_marriage db ev is_groom).2.persons,
        EnrichesOnly p q := by
  intro p hp
  simp only [create_or_update_person_from_marriage]
  cases hloop : marriageMatchLoop db
      (if (intTruthy (if is_groom then ev.groom_age else ev.bride_age)
           && intTruthy ev.year) = true
       then some (ev.year.getD 0 - (if is_groom then ev.groom_age else ev.bride_age).getD 0)
       else none)
      (if is_groom then ev.groom_location else ev.bride_location)
      (find_matches_by_name db (if is_groom then ev.groom_first_name else ev.bride_first_name)
        (if is_groom then ev.groom_last_name else ev.bride_last_name) (8/10)) with
  | some pr =>
    rcases marriageMatchLoop_frame db _ _ _ pr.1 pr.2 (by rw [hloop]) with
      ⟨cand, ⟨m', hm', hcand⟩, hen, hdb⟩
    rcases hdb with hdb | hdb
    · refine ⟨p, ?_, enrichesOnly_refl p⟩
      simpa [hdb] using hp
    · have hcmem : cand ∈ db.persons := hcand ▸ find_matches_person_mem hm'
      have hres := updatePerson_frame EnrichesOnly enrichesOnly_refl db cand pr.1 hen.1
        hcmem hids hen p hp
      simpa [hdb] using hres
  | none =>
    refine ⟨p, ?_, enrichesOnly_refl p⟩
    simp only [add_person]
    exact List.mem_append_left _ hp

/-- The store of the C8 counterexample: one person with non-null death date
and death place. -/
def deathOverwriteDB : DB :=
  ⟨[⟨1, some "Jan", some "Kowalski", some ⟨1850, 1, 1⟩, some ⟨1890, 1, 1⟩,
     some "Kiwerce", some "Luck", 1⟩], [], [], [], [], [], 2, 1, 1, 1, 1, 1⟩

/-- The death event of the C8 counterexample: same name, age 45 in 1895
(implied birth year 1850, matching the candidate within 5 years). -/
def deathOverwriteEvent : DeathEvent :=
  ⟨1, none, none, some 1895, some "Jan", some "Kowalski", some 45, some "Rowne", none, none⟩

/-- Counterexample to C8: death-event resolution accepts the existing person
(matched on name, and on birth year within 5 years) and overwrites its
non-null `death_date` (1890 → 1895) and `death_place` ("Luck" → "Rowne")
with the event's values, contradicting "every field that was non-null
before the resolution keeps its previous value". -/
theorem C8_counterexample :
    deathOverwriteDB.persons.map (fun p => (p.death_date, p.death_place))
        = [(some ⟨1890, 1, 1⟩, some "Luck")]
      ∧ (create_or_update_person_from_death deathOverwriteDB deathOverwriteEvent).1
        = some ⟨1, some "Jan", some "Kowalski", some ⟨1850, 1, 1⟩, some ⟨1895, 1, 1⟩,
                some "Kiwerce", some "Rowne", 1⟩
      ∧ (create_or_update_person_from_death deathOverwriteDB
            deathOverwriteEvent).2.persons.map (fun p => (p.death_date, p.death_place))
        = [(some ⟨1895, 1, 1⟩, some "Rowne")] := by
  decide

/-- C8 (amended): on a store whose person table is in increasing-id order,
birth- and marriage-event resolution never overwrite a present field of any
pre-existing person — only null fields may be filled (`EnrichesOnly`);
death-event resolution preserves each pre-existing person's id, names,
confidence, birth place and any present birth date, but the accepted
candidate's `death_date`/`death_place` are set from the event even when
they were non-null before. -/
theorem C8_amended_enrichment :
    (∀ (db : DB) (ev : BirthEvent), db.persons.Pairwise (fun a b => a.id < b.id) →
      ∀ p ∈ db.persons,
        ∃ q ∈ (create_or_update_person_from_birth db ev).2.persons, EnrichesOnly p q)
    ∧ (∀ (db : DB) (ev : MarriageEvent) (is_groom : Bool),
        db.persons.Pairwise (fun a b => a.id < b.id) →
        ∀ p ∈ db.persons,
          ∃ q ∈ (create_or_update_person_from_marriage db ev is_groom).2.persons,
            EnrichesOnly p q)
    ∧ (∀ (db : DB) (ev : DeathEvent), db.persons.Pairwise (fun a b => a.id < b.id) →
        ∀ p ∈ db.persons,
          ∃ q ∈ (create_or_update_person_from_death db ev).2.persons,
            PreservesIdentityAndBirth p q) :=
  ⟨birth_resolution_frame, fun db ev g => marriage_resolution_frame db ev g,
   death_resolution_frame⟩

/-- Witness for C8: the three conjuncts applied to the concrete one-person
store and events of the counterexample scenario. -/
theorem C8_amended_enrichment_witness :
    deathOverwriteDB.persons.Pairwise (fun a b => a.id < b.id)
    ∧ (⟨1, some "Jan", some "Kowalski", some ⟨1850, 1, 1⟩, some ⟨1890, 1, 1⟩,
        some "Kiwerce", some "Luck", 1⟩ : Person) ∈ deathOverwriteDB.persons
    ∧ (∃ q ∈ (create_or_update_person_from_birth deathOverwriteDB birthEventJanA).2.persons,
        EnrichesOnly ⟨1, some "Jan", some "Kowalski", some ⟨1850, 1, 1⟩, some ⟨1890, 1, 1⟩,
          some "Kiwerce", some "Luck", 1⟩ q)
    ∧ (∃ q ∈ (create_or_update_person_from_marriage deathOverwriteDB
          ⟨1, none, none, some 1875, none, some "Jan", some "Kowalski", some "Rowne",
           some 25, some "Ewa", some "Nowak", some "Rowne", some 20⟩ true).2.persons,
        EnrichesOnly ⟨1, some "Jan", some "Kowalski", some ⟨1850, 1, 1⟩, some ⟨1890, 1, 1⟩,
          some "Kiwerce", some "Luck", 1⟩ q)
    ∧ (∃ q ∈ (create_or_update_person_from_death deathOverwriteDB
          deathOverwriteEvent).2.persons,
        PreservesIdentityAndBirth ⟨1, some "Jan", some "Kowalski", some ⟨1850, 1, 1⟩,
          some ⟨1890, 1, 1⟩, some "Kiwerce", some "Luck", 1⟩ q) :=
  ⟨by decide, by decide,
   C8_amended_enrichment.1 deathOverwriteDB birthEventJanA (by decide) _ (by decide),
   C8_amended_enrichment.2.1 deathOverwriteDB
     ⟨1, none, none, some 1875, none, some "Jan", some "Kowalski", some "Rowne",
      some 25, some "Ewa", some "Nowak", some "Rowne", some 20⟩ true (by decide) _ (by decide),
   C8_amended_enrichment.2.2 deathOverwriteDB deathOverwriteEvent (by decide) _ (by decide)⟩

/-! ### C9 -/

theorem isOtherParentCheck_ne_fuel :
    ∀ (l : List (Relationship × Option Person)) (oid : Nat),
      isOtherParentCheck l oid ≠ Except.error TravErr.outOfFuel := by
  intro l
  induction l with
  | nil => intro oid h; cases h
  | cons x rest ih =>
    intro oid h
    obtain ⟨r, po⟩ := x
    cases po with
    | none => cases h
    | some pp =>
      simp only [isOtherParentCheck] at h
      split at h
      · cases h
      · exact ih oid h

theorem spouseLoopAnc_ne_fuel (db : DB) (person : Person) (rel : Relationship)
    (parentId : Nat) :
    ∀ (l : List Marriage) (tree : Tree),
      spouseLoopAnc db person rel parentId l tree ≠ Except.error TravErr.outOfFuel := by
  intro l
  induction l with
  | nil => intro tree h; cases h
  | cons marriage rest ih =>
    intro tree h
    simp only [spouseLoopAnc] at h
    split at h
    · next e heq =>
      cases h
      exact isOtherParentCheck_ne_fuel _ _ heq
    · exact ih _ h
    · split at h
      · cases h
      · exact ih _ h

theorem ancestorsRelLoop_ne_fuel (db : DB) (person : Person)
    (recur : Person → Tree → Nat → Nat → Except TravErr Tree) (mg cg : Nat)
    (hrec : ∀ p t, recur p t mg (cg + 1) ≠ Except.error TravErr.outOfFuel) :
    ∀ (l : List (Relationship × Option Person)) (tree : Tree),
      ancestorsRelLoop db person recur l tree mg cg ≠ Except.error TravErr.outOfFuel := by
  intro l
  induction l with
  | nil => intro tree h; cases h
  | cons x rest ih =>
    intro tree h
    obtain ⟨r, po⟩ := x
    cases po with
    | none => cases h
    | some parent =>
      simp only [ancestorsRelLoop] at h
      split at h
      · next e heq =>
        cases h
        exact hrec _ _ heq
      · split at h
        · next e heq =>
          cases h
          exact spouseLoopAnc_ne_fuel _ _ _ _ _ _ heq
        · exact ih _ h

theorem add_ancestors_ne_fuel (db : DB) :
    ∀ (fuel : Nat) (person : Person) (tree : Tree) (mg cg : Nat),
      mg - cg < fuel →
      add_ancestors db fuel person tree mg cg ≠ Except.error TravErr.outOfFuel := by
  intro fuel
  induction fuel with
  | zero => intro _ _ _ _ hlt; omega
  | succ f ih =>
    intro person tree mg cg hlt h
    simp only [add_ancestors] at h
    split at h
    · cases h
    · next hcg =>
      exact ancestorsRelLoop_ne_fuel db person (add_ancestors db f) mg cg
        (fun p t => ih p t mg (cg + 1) (by omega)) _ _ h

theorem descOtherParentsLoop_ne_fuel (db : DB) (person child : Person) :
    ∀ (l : List (Relationship × Option Person)) (tree : Tree),
      descOtherParentsLoop db person child l tree ≠ Except.error TravErr.outOfFuel := by
  intro l
  induction l with
  | nil => intro tree h; cases h
  | cons x rest ih =>
    intro tree h
    obtain ⟨r, po⟩ := x
    cases po with
    | none => cases h
    | some op =>
      simp only [descOtherParentsLoop] at h
      split at h
      · exact ih _ h
      · exact ih _ h

theorem descendantsRelLoop_ne_fuel (db : DB) (person : Person)
    (recur : Person → Tree → Nat → Nat → Except TravErr Tree) (mg cg : Nat)
    (hrec : ∀ p t, recur p t mg (cg + 1) ≠ Except.error TravErr.outOfFuel) :
    ∀ (l : List (Relationship × Option Person)) (tree : Tree),
      descendantsRelLoop db person recur l tree mg cg ≠ Except.error TravErr.outOfFuel := by
  intro l
  induction l with
  | nil => intro tree h; cases h
  | cons x rest ih =>
    intro tree h
    obtain ⟨r, po⟩ := x
    cases po with
    | none => cases h
    | some child =>
      simp only [descendantsRelLoop] at h
      split at h
      · next e heq =>
        cases h
        exact descOtherParentsLoop_ne_fuel _ _ _ _ _ heq
      · split at h
        · next e heq =>
          cases h
          exact hrec _ _ heq
        · exact ih _ h

theorem add_descendants_ne_fuel (db : DB) :
    ∀ (fuel : Nat) (person : Person) (tree : Tree) (mg cg : Nat),
      mg - cg < fuel →
      add_descendants db fuel person tree mg cg ≠ Except.error TravErr.outOfFuel := by
  intro fuel
  induction fuel with
  | zero => intro _ _ _ _ hlt; omega
  | succ f ih =>
    intro person tree mg cg hlt h
    simp only [add_descendants] at h
    split at h
    · cases h
    · next hcg =>
      exact descendantsRelLoop_ne_fuel db person (add_descendants db f) mg cg
        (fun p t => ih p t mg (cg + 1) (by omega)) _ _ h

/-- C9: on every store — cyclic relationship data included — and every
generation bound, the ancestor and descendant expansions terminate.  The
fuel-indexed embeddings consume one unit of fuel per generation step and
stop at the `current_gen >= max_generations` guard, so with `maxGen + 1`
fuel (the bound on the recursion depth, since the generation counter
strictly increases on every recursive call) the fuel is never exhausted:
the run ends in a finished tree or in the `AttributeError` a dangling
person reference raises, never in non-termination. -/
theorem C9_traversal_terminates (db : DB) (root : Person) (tree : Tree) (maxGen : Nat) :
    add_ancestors db (maxGen + 1) root tree maxGen 0 ≠ Except.error TravErr.outOfFuel
      ∧ add_descendants db (maxGen + 1) root tree maxGen 0
        ≠ Except.error TravErr.outOfFuel :=
  ⟨add_ancestors_ne_fuel db (maxGen + 1) root tree maxGen 0 (by omega),
   add_descendants_ne_fuel db (maxGen + 1) root tree maxGen 0 (by omega)⟩

/-! ### C1 -/

/-- No two relationship rows share a `(parent_id, child_id)` pair. -/
def RelPairsNodup (db : DB) : Prop :=
  db.relationships.Pairwise (fun r s => ¬(r.parent_id = s.parent_id ∧ r.child_id = s.child_id))

/-- Two marriage rows store the same unordered person pair. -/
def samePair (m n : Marriage) : Prop :=
  (m.person1_id = n.person1_id ∧ m.person2_id = n.person2_id)
    ∨ (m.person1_id = n.person2_id ∧ m.person2_id = n.person1_id)

/-- No two marriage rows share an unordered person pair. -/
def MarPairsNodup (db : DB) : Prop :=
  db.marriages.Pairwise (fun m n => ¬ samePair m n)

instance (m n : Marriage) : Decidable (samePair m n) := by
  unfold samePair
  infer_instance

instance (db : DB) : Decidable (RelPairsNodup db) := by
  unfold RelPairsNodup
  infer_instance

instance (db : DB) : Decidable (MarPairsNodup db) := by
  unfold MarPairsNodup
  infer_instance

/-- A generic preservation principle for the merge folds. -/
theorem foldl_pres {α : Type} (P : DB → Prop) (step : DB → α → DB)
    (hstep : ∀ db x, P db → P (step db x)) :
    ∀ (l : List α) (db : DB), P db → P (l.foldl step db) := by
  intro l
  induction l with
  | nil => intro db h; exact h
  | cons x rest ih => intro db h; exact ih (step db x) (hstep db x h)

theorem add_relationship_persons (db : DB) (a b : Nat) (f : Bool) (c : ℚ) :
    (add_relationship db a b f c).2.persons = db.persons := by
  unfold add_relationship
  cases db.relationships.find? (fun r => r.parent_id == a && r.child_id == b) <;> rfl

theorem add_marriage_persons (db : DB) (a b : Nat) (d : Option Date) (pl : Option String)
    (c : ℚ) (e : Option Nat) : (add_marriage db a b d pl c e).2.persons = db.persons := by
  unfold add_marriage
  cases db.marriages.filter (fun m => m.person1_id == a && m.person2_id == b) <;>
    cases db.marriages.filter (fun m => m.person1_id == b && m.person2_id == a) <;> rfl

theorem mergeParentStep_persons (p1 : Person) (db : DB) (rel : Relationship) :
    (mergeParentStep p1 db rel).persons = db.persons := by
  unfold mergeParentStep
  cases db.relationships.find? (fun r => r.parent_id == rel.parent_id
      && r.child_id == p1.id) with
  | none => exact add_relationship_persons db rel.parent_id p1.id rel.is_father rel.confidence
  | some r => rfl

theorem mergeChildStep_persons (p1 : Person) (db : DB) (rel : Relationship) :
    (mergeChildStep p1 db rel).persons = db.persons := by
  unfold mergeChildStep
  cases db.relationships.find? (fun r => r.parent_id == p1.id
      && r.child_id == rel.child_id) with
  | none => exact add_relationship_persons db p1.id rel.child_id rel.is_father rel.confidence
  | some r => rfl

theorem mergeMarriageStep_persons (p1 p2 : Person) (db : DB) (m : Marriage) :
    (mergeMarriageStep p1 p2 db m).persons = db.persons := by
  dsimp only [mergeMarriageStep]
  split
  · rfl
  · apply add_marriage_persons

theorem add_relationship_rel_mono (db : DB) (a b : Nat) (f : Bool) (c : ℚ)
    {r : Relationship} (hr : r ∈ db.relationships) :
    r ∈ (add_relationship db a b f c).2.relationships := by
  unfold add_relationship
  cases db.relationships.find? (fun s => s.parent_id == a && s.child_id == b) with
  | none => exact List.mem_append_left _ hr
  | some s => exact hr

theorem mergeParentStep_rel_mono (p1 : Person) (db : DB) (rel : Relationship)
    {r : Relationship} (hr : r ∈ db.relationships) :
    r ∈ (mergeParentStep p1 db rel).relationships := by
  unfold mergeParentStep
  cases db.relationships.find? (fun s => s.parent_id == rel.parent_id
      && s.child_id == p1.id) with
  | none => exact add_relationship_rel_mono db rel.parent_id p1.id rel.is_father rel.confidence hr
  | some s => exact hr

theorem mergeChildStep_rel_mono (p1 : Person) (db : DB) (rel : Relationship)
    {r : Relationship} (hr : r ∈ db.relationships) :
    r ∈ (mergeChildStep p1 db rel).relationships := by
  unfold mergeChildStep
  cases db.relationships.find? (fun s => s.parent_id == p1.id
      && s.child_id == rel.child_id) with
  | none => exact add_relationship_rel_mono db p1.id rel.child_id rel.is_father rel.confidence hr
  | some s => exact hr

theorem add_marriage_rels (db : DB) (a b : Nat) (d : Option Date) (pl : Option String)
    (c : ℚ) (e : Option Nat) : (add_marriage db a b d pl c e).2.relationships
      = db.relationships := by
  unfold add_marriage
  cases db.marriages.filter (fun m => m.person1_id == a && m.person2_id == b) <;>
    cases db.marriages.filter (fun m => m.person1_id == b && m.person2_id == a) <;> rfl

theorem mergeMarriageStep_rels (p1 p2 : Person) (db : DB) (m : Marriage) :
    (mergeMarriageStep p1 p2 db m).relationships = db.relationships := by
  dsimp only [mergeMarriageStep]
  split
  · rfl
  · apply add_marriage_rels

theorem add_relationship_mar (db : DB) (a b : Nat) (f : Bool) (c : ℚ) :
    (add_relationship db a b f c).2.marriages = db.marriages := by
  unfold add_relationship
  cases db.relationships.find? (fun r => r.parent_id == a && r.child_id == b) <;> rfl

theorem mergeParentStep_mar (p1 : Person) (db : DB) (rel : Relationship) :
    (mergeParentStep p1 db rel).marriages = db.marriages := by
  unfold mergeParentStep
  cases db.relationships.find? (fun s => s.parent_id == rel.parent_id
      && s.child_id == p1.id) with
  | none => exact add_relationship_mar db rel.parent_id p1.id rel.is_father rel.confidence
  | some s => rfl

theorem mergeChildStep_mar (p1 : Person) (db : DB) (rel : Relationship) :
    (mergeChildStep p1 db rel).marriages = db.marriages := by
  unfold mergeChildStep
  cases db.relationships.find? (fun s => s.parent_id == p1.id
      && s.child_id == rel.child_id) with
  | none => exact add_relationship_mar db p1.id rel.child_id rel.is_father rel.confidence
  | some s => rfl

theorem add_marriage_mar_mono (db : DB) (a b : Nat) (d : Option Date) (pl : Option String)
    (c : ℚ) (e : Option Nat) {m : Marriage} (hm : m ∈ db.marriages) :
    m ∈ (add_marriage db a b d pl c e).2.marriages := by
  unfold add_marriage
  cases db.marriages.filter (fun n => n.person1_id == a && n.person2_id == b) <;>
    cases db.marriages.filter (fun n => n.person1_id == b && n.person2_id == a)
  · exact List.mem_append_left _ hm
  · exact hm
  · exact hm
  · exact hm

theorem mergeMarriageStep_mar_mono (p1 p2 : Person) (db : DB) (m : Marriage)
    {n : Marriage} (hn : n ∈ db.marriages) :
    n ∈ (mergeMarriageStep p1 p2 db m).marriages := by
  dsimp only [mergeMarriageStep]
  split
  · exact hn
  · exact add_marriage_mar_mono _ _ _ _ _ _ _ hn

theorem mergeParentStep_estab (p1 : Person) (db : DB) (rel : Relationship) :
    ∃ r' ∈ (mergeParentStep p1 db rel).relationships,
      r'.parent_id = rel.parent_id ∧ r'.child_id = p1.id := by
  unfold mergeParentStep
  cases hf : db.relationships.find? (fun r => r.parent_id == rel.parent_id
      && r.child_id == p1.id) with
  | some r' =>
    have hpred := List.find?_some hf
    simp only [Bool.and_eq_true, beq_iff_eq] at hpred
    exact ⟨r', List.mem_of_find?_eq_some hf, hpred⟩
  | none =>
    unfold add_relationship
    rw [hf]
    exact ⟨_, List.mem_append_right _ (List.mem_singleton_self _), rfl, rfl⟩

theorem mergeChildStep_estab (p1 : Person) (db : DB) (rel : Relationship) :
    ∃ r' ∈ (mergeChildStep p1 db rel).relationships,
      r'.parent_id = p1.id ∧ r'.child_id = rel.child_id := by
  unfold mergeChildStep
  cases hf : db.relationships.find? (fun r => r.parent_id == p1.id
      && r.child_id == rel.child_id) with
  | some r' =>
    have hpred := List.find?_some hf
    simp only [Bool.and_eq_true, beq_iff_eq] at hpred
    exact ⟨r', List.mem_of_find?_eq_some hf, hpred⟩
  | none =>
    unfold add_relationship
    rw [hf]
    exact ⟨_, List.mem_append_right _ (List.mem_singleton_self _), rfl, rfl⟩

theorem mergeMarriageStep_estab (p1 p2 : Person) (db : DB) (m : Marriage) :
    ∃ m' ∈ (mergeMarriageStep p1 p2 db m).marriages,
      pairMatches p1.id (if m.person1_id != p2.id then m.person1_id else m.person2_id) m'
        = true := by
  dsimp only [mergeMarriageStep]
  split
  · next mm hf =>
    exact ⟨mm, List.mem_of_find?_eq_some hf, List.find?_some hf⟩
  · next hf =>
    unfold add_marriage
    cases h1 : db.marriages.filter (fun n => n.person1_id == p1.id
        && n.person2_id == (if m.person1_id != p2.id then m.person1_id else m.person2_id)) with
    | cons m' tl =>
      have hm' : m' ∈ db.marriages.filter (fun n => n.person1_id == p1.id
          && n.person2_id == (if m.person1_id != p2.id then m.person1_id
            else m.person2_id)) := by
        rw [h1]; exact List.mem_cons_self _ _
      rcases List.mem_filter.mp hm' with ⟨hmem, hpred⟩
      refine ⟨m', hmem, ?_⟩
      simp only [pairMatches, Bool.or_eq_true]
      exact Or.inl hpred
    | nil =>
      cases h2 : db.marriages.filter (fun n =>
          n.person1_id == (if m.person1_id != p2.id then m.person1_id else m.person2_id)
          && n.person2_id == p1.id) with
      | cons m' tl =>
        have hm' : m' ∈ db.marriages.filter (fun n =>
            n.person1_id == (if m.person1_id != p2.id then m.person1_id else m.person2_id)
            && n.person2_id == p1.id) := by
          rw [h2]; exact List.mem_cons_self _ _
        rcases List.mem_filter.mp hm' with ⟨hmem, hpred⟩
        refine ⟨m', hmem, ?_⟩
        simp only [pairMatches, Bool.or_eq_true]
        exact Or.inr hpred
      | nil =>
        refine ⟨_, List.mem_append_right _ (List.mem_singleton_self _), ?_⟩
        simp [pairMatches]

theorem foldl_mergeParent_estab (p1 : Person) :
    ∀ (l : List Relationship) (db : DB) (rel : Relationship), rel ∈ l →
      ∃ r' ∈ (l.foldl (mergeParentStep p1) db).relationships,
        r'.parent_id = rel.parent_id ∧ r'.child_id = p1.id := by
  intro l
  induction l with
  | nil => intro db rel h; cases h
  | cons x rest ih =>
    intro db rel h
    simp only [List.foldl_cons]
    rcases List.mem_cons.mp h with rfl | h
    · rcases mergeParentStep_estab p1 db rel with ⟨r', hr', hpair⟩
      exact ⟨r', foldl_pres (fun d => r' ∈ d.relationships) (mergeParentStep p1)
        (fun d y hm => mergeParentStep_rel_mono p1 d y hm) rest _ hr', hpair⟩
    · exact ih (mergeParentStep p1 db x) rel h

theorem foldl_mergeChild_estab (p1 : Person) :
    ∀ (l : List Relationship) (db : DB) (rel : Relationship), rel ∈ l →
      ∃ r' ∈ (l.foldl (mergeChildStep p1) db).relationships,
        r'.parent_id = p1.id ∧ r'.child_id = rel.child_id := by
  intro l
  induction l with
  | nil => intro db rel h; cases h
  | cons x rest ih =>
    intro db rel h
    simp only [List.foldl_cons]
    rcases List.mem_cons.mp h with rfl | h
    · rcases mergeChildStep_estab p1 db rel with ⟨r', hr', hpair⟩
      exact ⟨r', foldl_pres (fun d => r' ∈ d.relationships) (mergeChildStep p1)
        (fun d y hm => mergeChildStep_rel_mono p1 d y hm) rest _ hr', hpair⟩
    · exact ih (mergeChildStep p1 db x) rel h

theorem foldl_mergeMarriage_estab (p1 p2 : Person) :
    ∀ (l : List Marriage) (db : DB) (m : Marriage), m ∈ l →
      ∃ m' ∈ (l.foldl (mergeMarriageStep p1 p2) db).marriages,
        pairMatches p1.id (if m.person1_id != p2.id then m.person1_id else m.person2_id) m'
          = true := by
  intro l
  induction l with
  | nil => intro db m h; cases h
  | cons x rest ih =>
    intro db m h
    simp only [List.foldl_cons]
    rcases List.mem_cons.mp h with rfl | h
    · rcases mergeMarriageStep_estab p1 p2 db m with ⟨m', hm', hpair⟩
      exact ⟨m', foldl_pres (fun d => m' ∈ d.marriages) (mergeMarriageStep p1 p2)
        (fun d y hm => mergeMarriageStep_mar_mono p1 p2 d y hm) rest _ hm', hpair⟩
    · exact ih (mergeMarriageStep p1 p2 db x) m h

theorem add_relationship_nodup (db : DB) (a b : Nat) (f : Bool) (c : ℚ)
    (h : RelPairsNodup db) : RelPairsNodup (add_relationship db a b f c).2 := by
  unfold RelPairsNodup at *
  unfold add_relationship
  cases hf : db.relationships.find? (fun r => r.parent_id == a && r.child_id == b) with
  | some r => exact h
  | none =>
    show (db.relationships ++ [_]).Pairwise _
    rw [List.pairwise_append]
    refine ⟨h, List.pairwise_singleton _ _, ?_⟩
    intro r hr r' hr'
    rw [List.mem_singleton] at hr'
    subst hr'
    have := List.find?_eq_none.mp hf r hr
    simp only [Bool.and_eq_true, beq_iff_eq, not_and] at this ⊢
    exact this

theorem mergeParentStep_nodup (p1 : Person) (db : DB) (rel : Relationship)
    (h : RelPairsNodup db) : RelPairsNodup (mergeParentStep p1 db rel) := by
  unfold mergeParentStep
  split
  · exact h
  · exact add_relationship_nodup _ _ _ _ _ h

theorem mergeChildStep_nodup (p1 : Person) (db : DB) (rel : Relationship)
    (h : RelPairsNodup db) : RelPairsNodup (mergeChildStep p1 db rel) := by
  unfold mergeChildStep
  split
  · exact h
  · exact add_relationship_nodup _ _ _ _ _ h

theorem add_marriage_mnodup (db : DB) (a b : Nat) (d : Option Date) (pl : Option String)
    (c : ℚ) (e : Option Nat) (h : MarPairsNodup db) :
    MarPairsNodup (add_marriage db a b d pl c e).2 := by
  unfold MarPairsNodup at *
  unfold add_marriage
  cases h1 : db.marriages.filter (fun n => n.person1_id == a && n.person2_id == b) with
  | cons m' tl => exact h
  | nil =>
    cases h2 : db.marriages.filter (fun n => n.person1_id == b && n.person2_id == a) with
    | cons m' tl => exact h
    | nil =>
      show (db.marriages ++ [_]).Pairwise _
      rw [List.pairwise_append]
      refine ⟨h, List.pairwise_singleton _ _, ?_⟩
      intro m hm m' hm'
      rw [List.mem_singleton] at hm'
      subst hm'
      have hn1 := List.filter_eq_nil_iff.mp h1 m hm
      have hn2 := List.filter_eq_nil_iff.mp h2 m hm
      simp only [Bool.and_eq_true, beq_iff_eq, not_and] at hn1 hn2
      intro hsp
      rcases hsp with ⟨ha, hb⟩ | ⟨ha, hb⟩
      · exact hn1 ha hb
      · exact hn2 ha hb

theorem mergeMarriageStep_mnodup (p1 p2 : Person) (db : DB) (m : Marriage)
    (h : MarPairsNodup db) : MarPairsNodup (mergeMarriageStep p1 p2 db m) := by
  dsimp only [mergeMarriageStep]
  split
  · exact h
  · exact add_marriage_mnodup _ _ _ _ _ _ _ h

/-- After committing the update of the keep-person and deleting the
drop-person's row, the keep id still resolves — to the updated record. -/
theorem find_after_update_delete (l : List Person) (keep drop : Nat) (p1 p1' : Person)
    (hfind : l.find? (fun q => q.id == keep) = some p1) (hid : p1'.id = p1.id)
    (hkid : p1.id = keep) (hne : keep ≠ drop) :
    ((l.map (fun q => if q.id == p1'.id then p1' else q)).filter
      (fun q => q.id != drop)).find? (fun q => q.id == keep) = some p1' := by
  induction l with
  | nil => cases hfind
  | cons x rest ih =>
    rw [List.find?_cons] at hfind
    by_cases hx : x.id = keep
    · have hb : (x.id == keep) = true := by simpa using hx
      simp only [hb] at hfind
      cases hfind
      have hb1 : (p1.id == p1'.id) = true := by
        rw [hid]
        exact beq_self_eq_true p1.id
      have hb2 : (p1'.id != drop) = true := by
        simp only [bne_iff_ne, ne_eq]
        rw [hid, hx]
        exact hne
      have hb3 : (p1'.id == keep) = true := by
        rw [hid, hx]
        exact beq_self_eq_true keep
      simp only [List.map_cons, hb1, if_true, List.filter_cons, hb2, List.find?_cons, hb3]
    · have hb : (x.id == keep) = false := by simpa using hx
      simp only [hb] at hfind
      have hb1 : (x.id == p1'.id) = false := by
        rw [hid, hkid]
        simpa using hx
      simp only [List.map_cons, hb1, Bool.false_eq_true, if_false, List.filter_cons]
      by_cases hxd : x.id = drop
      · have hb2 : (x.id != drop) = false := by simpa using hxd
        simp only [hb2, Bool.false_eq_true, if_false]
        exact ih hfind
      · have hb2 : (x.id != drop) = true := by simpa using hxd
        simp only [hb2, if_true, List.find?_cons, hb]
        exact ih hfind

/-- The backfill touches only the four date/place fields, fills them only
when falsy, and fills them from `person2` exactly when `person2`'s value is
truthy. -/
theorem mergeBackfill_spec (p1 p2 : Person) :
    (mergeBackfill p1 p2).id = p1.id
    ∧ (mergeBackfill p1 p2).first_name = p1.first_name
    ∧ (mergeBackfill p1 p2).last_name = p1.last_name
    ∧ (mergeBackfill p1 p2).confidence = p1.confidence
    ∧ (p1.birth_date.isSome = true → (mergeBackfill p1 p2).birth_date = p1.birth_date)
    ∧ (p1.birth_date = none → (mergeBackfill p1 p2).birth_date = p2.birth_date)
    ∧ (strTruthy p1.birth_place = true →
        (mergeBackfill p1 p2).birth_place = p1.birth_place)
    ∧ (strTruthy p1.birth_place = false → strTruthy p2.birth_place = true →
        (mergeBackfill p1 p2).birth_place = p2.birth_place)
    ∧ (p1.death_date.isSome = true → (mergeBackfill p1 p2).death_date = p1.death_date)
    ∧ (p1.death_date = none → (mergeBackfill p1 p2).death_date = p2.death_date)
    ∧ (strTruthy p1.death_place = true →
        (mergeBackfill p1 p2).death_place = p1.death_place)
    ∧ (strTruthy p1.death_place = false → strTruthy p2.death_place = true →
        (mergeBackfill p1 p2).death_place = p2.death_place) := by
  refine ⟨rfl, rfl, rfl, rfl, ?_, ?_, ?_, ?_, ?_, ?_, ?_, ?_⟩
  · intro hs; simp [mergeBackfill, hs]
  · intro hs; cases hp2 : p2.birth_date <;> simp [mergeBackfill, hs, hp2]
  · intro hs; simp [mergeBackfill, hs]
  · intro hs ht; simp [mergeBackfill, hs, ht]
  · intro hs; simp [mergeBackfill, hs]
  · intro hs; cases hp2 : p2.death_date <;> simp [mergeBackfill, hs, hp2]
  · intro hs; simp [mergeBackfill, hs]
  · intro hs ht; simp [mergeBackfill, hs, ht]

/-- The result of a successful merge, written out stage by stage. -/
theorem merge_persons_eq (db : DB) (keep drop : Nat) (p1 p2 : Person)
    (hkeep : get_person_by_id db keep = some p1)
    (hdrop : get_person_by_id db drop = some p2) :
    merge_persons db keep drop
      = (some (mergeBackfill p1 p2),
         deletePersonRow
           (mergeRepointEvents
             ((personSpouses db p2.id).foldl (mergeMarriageStep (mergeBackfill p1 p2) p2)
               ((personChildren db p2.id).foldl (mergeChildStep (mergeBackfill p1 p2))
                 ((personParents db p2.id).foldl (mergeParentStep (mergeBackfill p1 p2))
                   (updatePerson db (mergeBackfill p1 p2)))))
             (mergeBackfill p1 p2) p2)
           p2) := by
  simp only [merge_persons, hkeep, hdrop]

/-- C1 (amended): merging `drop` into `keep` (distinct, both resolving, on a
store without duplicate edges) deletes `drop`'s row, backfills only `keep`'s
falsy birth/death date/place fields from `drop` (per `mergeBackfill_spec`;
`first_name`/`last_name` are never backfilled), and *copies* every
relationship and marriage that referenced `drop` onto `keep` — a
corresponding edge with `keep` in `drop`'s place exists afterwards, no
duplicate `(parent_id, child_id)` pair and no duplicate unordered marriage
pair is created — while the original edges referencing `drop` are left in
place rather than re-pointed. -/
theorem C1_amended_merge (db : DB) (keep drop : Nat) (p1 p2 : Person)
    (hkeep : get_person_by_id db keep = some p1)
    (hdrop : get_person_by_id db drop = some p2)
    (hne : keep ≠ drop)
    (hrnd : RelPairsNodup db) (hmnd : MarPairsNodup db) :
    (merge_persons db keep drop).1 = some (mergeBackfill p1 p2)
    ∧ get_person_by_id (merge_persons db keep drop).2 keep = some (mergeBackfill p1 p2)
    ∧ get_person_by_id (merge_persons db keep drop).2 drop = none
    ∧ (∀ r ∈ db.relationships, r.child_id = drop →
        ∃ r' ∈ (merge_persons db keep drop).2.relationships,
          r'.parent_id = r.parent_id ∧ r'.child_id = keep)
    ∧ (∀ r ∈ db.relationships, r.parent_id = drop →
        ∃ r' ∈ (merge_persons db keep drop).2.relationships,
          r'.parent_id = keep ∧ r'.child_id = r.child_id)
    ∧ (∀ m ∈ db.marriages, (m.person1_id = drop ∨ m.person2_id = drop) →
        ∃ m' ∈ (merge_persons db keep drop).2.marriages,
          pairMatches keep (if m.person1_id != drop then m.person1_id
            else m.person2_id) m' = true)
    ∧ RelPairsNodup (merge_persons db keep drop).2
    ∧ MarPairsNodup (merge_persons db keep drop).2
    ∧ (∀ r ∈ db.relationships, r ∈ (merge_persons db keep drop).2.relationships)
    ∧ (∀ m ∈ db.marriages, m ∈ (merge_persons db keep drop).2.marriages) := by
  have hkid : p1.id = keep := by
    have := List.find?_some hkeep
    simpa using this
  have hdid : p2.id = drop := by
    have := List.find?_some hdrop
    simpa using this
  rw [merge_persons_eq db keep drop p1 p2 hkeep hdrop]
  set bf := mergeBackfill p1 p2 with hbf
  set dbU := updatePerson db bf with hdbU
  set dbP := (personParents db p2.id).foldl (mergeParentStep bf) dbU with hdbP
  set dbC := (personChildren db p2.id).foldl (mergeChildStep bf) dbP with hdbC
  set dbM := (personSpouses db p2.id).foldl (mergeMarriageStep bf p2) dbC with hdbM
  have hbfid : bf.id = p1.id := rfl
  -- persons are only changed by the update
  have hPpers : dbP.persons = dbU.persons := by
    rw [hdbP]
    exact foldl_pres (fun d => d.persons = dbU.persons) _
      (fun d x hp => (mergeParentStep_persons bf d x).trans hp) _ _ rfl
  have hCpers : dbC.persons = dbU.persons := by
    rw [hdbC]
    exact foldl_pres (fun d => d.persons = dbU.persons) _
      (fun d x hp => (mergeChildStep_persons bf d x).trans hp) _ _ hPpers
  have hMpers : dbM.persons = dbU.persons := by
    rw [hdbM]
    exact foldl_pres (fun d => d.persons = dbU.persons) _
      (fun d x hp => (mergeMarriageStep_persons bf p2 d x).trans hp) _ _ hCpers
  -- relationship rows survive every stage
  have hrmonoP : ∀ r ∈ db.relationships, r ∈ dbP.relationships := by
    intro r hr
    rw [hdbP]
    exact foldl_pres (fun d => r ∈ d.relationships) _
      (fun d x hp => mergeParentStep_rel_mono bf d x hp) _ _ hr
  have hrmonoC : ∀ r ∈ dbP.relationships, r ∈ dbC.relationships := by
    intro r hr
    rw [hdbC]
    exact foldl_pres (fun d => r ∈ d.relationships) _
      (fun d x hp => mergeChildStep_rel_mono bf d x hp) _ _ hr
  have hrmonoM : ∀ r ∈ dbC.relationships, r ∈ dbM.relationships := by
    intro r hr
    rw [hdbM]
    exact foldl_pres (fun d => r ∈ d.relationships) _
      (fun d x hp => by
        show r ∈ (mergeMarriageStep bf p2 d x).relationships
        rw [mergeMarriageStep_rels]; exact hp) _ _ hr
  -- marriage rows survive every stage
  have hmmonoP : ∀ m ∈ db.marriages, m ∈ dbP.marriages := by
    intro m hm
    rw [hdbP]
    exact foldl_pres (fun d => m ∈ d.marriages) _
      (fun d x hp => by
        show m ∈ (mergeParentStep bf d x).marriages
        rw [mergeParentStep_mar]; exact hp) _ _ hm
  have hmmonoC : ∀ m ∈ dbP.marriages, m ∈ dbC.marriages := by
    intro m hm
    rw [hdbC]
    exact foldl_pres (fun d => m ∈ d.marriages) _
      (fun d x hp => by
        show m ∈ (mergeChildStep bf d x).marriages
        rw [mergeChildStep_mar]; exact hp) _ _ hm
  have hmmonoM : ∀ m ∈ dbC.marriages, m ∈ dbM.marriages := by
    intro m hm
    rw [hdbM]
    exact foldl_pres (fun d => m ∈ d.marriages) _
      (fun d x hp => mergeMarriageStep_mar_mono bf p2 d x hp) _ _ hm
  refine ⟨rfl, ?_, ?_, ?_, ?_, ?_, ?_, ?_, ?_, ?_⟩
  · -- keep still resolves, to the backfilled record
    show ((dbM.persons.filter (fun p => p.id != p2.id)).find? (fun p => p.id == keep))
      = some bf
    rw [hMpers, hdid]
    exact find_after_update_delete db.persons keep drop p1 bf hkeep hbfid hkid hne
  · -- drop's row is gone
    show ((dbM.persons.filter (fun p => p.id != p2.id)).find? (fun p => p.id == drop))
      = none
    refine List.find?_eq_none.mpr (fun q hq => ?_)
    have hmem := (List.mem_filter.mp hq).2
    rw [hdid] at hmem
    simpa using bne_iff_ne.mp hmem
  · -- parent edges onto keep
    intro r hr hcd
    have hmem : r ∈ personParents db p2.id := by
      rw [personParents, List.mem_filter]
      exact ⟨hr, by rw [hdid]; simpa using hcd⟩
    rcases foldl_mergeParent_estab bf (personParents db p2.id) dbU r hmem with
      ⟨r', hr', hp, hc⟩
    exact ⟨r', hrmonoM _ (hrmonoC _ hr'), hp, by rw [hc, hbfid, hkid]⟩
  · -- child edges onto keep
    intro r hr hpd
    have hmem : r ∈ personChildren db p2.id := by
      rw [personChildren, List.mem_filter]
      exact ⟨hr, by rw [hdid]; simpa using hpd⟩
    rcases foldl_mergeChild_estab bf (personChildren db p2.id) dbP r hmem with
      ⟨r', hr', hp, hc⟩
    exact ⟨r', hrmonoM _ hr', by rw [hp, hbfid, hkid], hc⟩
  · -- marriages onto keep
    intro m hm hd
    have hmem : m ∈ personSpouses db p2.id := by
      rw [personSpouses]
      rcases hd with hd | hd
      · exact List.mem_append_left _ (List.mem_filter.mpr ⟨hm, by rw [hdid]; simpa using hd⟩)
      · exact List.mem_append_right _ (List.mem_filter.mpr ⟨hm, by rw [hdid]; simpa using hd⟩)
    rcases foldl_mergeMarriage_estab bf p2 (personSpouses db p2.id) dbC m hmem with
      ⟨m', hm', hpair⟩
    refine ⟨m', hm', ?_⟩
    rw [hdid] at hpair
    rw [← hkid, ← hbfid]
    exact hpair
  · -- no duplicate (parent, child) pairs
    show RelPairsNodup dbM
    have h1 : RelPairsNodup dbP := by
      rw [hdbP]
      exact foldl_pres RelPairsNodup _
        (fun d x hp => mergeParentStep_nodup bf d x hp) _ _ hrnd
    have h2 : RelPairsNodup dbC := by
      rw [hdbC]
      exact foldl_pres RelPairsNodup _
        (fun d x hp => mergeChildStep_nodup bf d x hp) _ _ h1
    rw [hdbM]
    exact foldl_pres RelPairsNodup _
      (fun d x hp => by
        show RelPairsNodup (mergeMarriageStep bf p2 d x)
        unfold RelPairsNodup at hp ⊢
        rw [mergeMarriageStep_rels]
        exact hp) _ _ h2
  · -- no duplicate unordered marriage pairs
    show MarPairsNodup dbM
    have h1 : MarPairsNodup dbP := by
      rw [hdbP]
      exact foldl_pres MarPairsNodup _
        (fun d x hp => by
          show MarPairsNodup (mergeParentStep bf d x)
          unfold MarPairsNodup at hp ⊢
          rw [mergeParentStep_mar]
          exact hp) _ _ hmnd
    have h2 : MarPairsNodup dbC := by
      rw [hdbC]
      exact foldl_pres MarPairsNodup _
        (fun d x hp => by
          show MarPairsNodup (mergeChildStep bf d x)
          unfold MarPairsNodup at hp ⊢
          rw [mergeChildStep_mar]
          exact hp) _ _ h1
    rw [hdbM]
    exact foldl_pres MarPairsNodup _
      (fun d x hp => mergeMarriageStep_mnodup bf p2 d x hp) _ _ h2
  · -- the original relationship rows are all still there
    intro r hr
    exact hrmonoM _ (hrmonoC _ (hrmonoP _ hr))
  · -- the original marriage rows are all still there
    intro m hm
    exact hmmonoM _ (hmmonoC _ (hmmonoP _ hm))

/-- The person kept in the C1 scenario: null first name, no dates/places. -/
def mergeDemoKeep : Person := ⟨1, none, some "Kowalski", none, none, none, none, 1⟩

/-- The person merged away in the C1 scenario: it carries a first name, a
birth date and a birth place, and has a parent relationship pointing at it. -/
def mergeDemoDrop : Person :=
  ⟨2, some "Jan", some "Kowalski", some ⟨1850, 1, 1⟩, none, some "Luck", none, 1⟩

/-- The parent of the dropped person in the C1 scenario. -/
def mergeDemoParent : Person := ⟨3, some "Adam", some "Kowalski", none, none, none, none, 1⟩

/-- The C1 scenario store: three persons and one relationship `3 → 2`. -/
def mergeDemoDB : DB :=
  ⟨[mergeDemoKeep, mergeDemoDrop, mergeDemoParent], [⟨1, 3, 2, true, 1⟩],
   [], [], [], [], 4, 2, 1, 1, 1, 1⟩

/-- Counterexample to C1: after `merge(1, 2)`, the old relationship row
`3 → 2` still references the dropped person (its copy `3 → 1` was merely
added next to it), and the keep-person's null `first_name` was *not*
backfilled from the dropped person's `"Jan"` — only the four
birth/death date/place fields are backfilled. -/
theorem C1_counterexample :
    mergeDemoDB.relationships = [⟨1, 3, 2, true, 1⟩]
      ∧ (merge_persons mergeDemoDB 1 2).2.relationships
        = [⟨1, 3, 2, true, 1⟩, ⟨2, 3, 1, true, 1⟩]
      ∧ mergeDemoDrop.first_name = some "Jan"
      ∧ (get_person_by_id (merge_persons mergeDemoDB 1 2).2 1).map Person.first_name
        = some none := by
  decide

/-- Witness for C1: the amended theorem applied to the concrete scenario
store. -/
theorem C1_amended_merge_witness :
    get_person_by_id mergeDemoDB 1 = some mergeDemoKeep
    ∧ get_person_by_id mergeDemoDB 2 = some mergeDemoDrop
    ∧ (1 : Nat) ≠ 2
    ∧ RelPairsNodup mergeDemoDB
    ∧ MarPairsNodup mergeDemoDB
    ∧ ((merge_persons mergeDemoDB 1 2).1 = some (mergeBackfill mergeDemoKeep mergeDemoDrop)
      ∧ get_person_by_id (merge_persons mergeDemoDB 1 2).2 1
        = some (mergeBackfill mergeDemoKeep mergeDemoDrop)
      ∧ get_person_by_id (merge_persons mergeDemoDB 1 2).2 2 = none
      ∧ (∀ r ∈ mergeDemoDB.relationships, r.child_id = 2 →
          ∃ r' ∈ (merge_persons mergeDemoDB 1 2).2.relationships,
            r'.parent_id = r.parent_id ∧ r'.child_id = 1)
      ∧ (∀ r ∈ mergeDemoDB.relationships, r.parent_id = 2 →
          ∃ r' ∈ (merge_persons mergeDemoDB 1 2).2.relationships,
            r'.parent_id = 1 ∧ r'.child_id = r.child_id)
      ∧ (∀ m ∈ mergeDemoDB.marriages, (m.person1_id = 2 ∨ m.person2_id = 2) →
          ∃ m' ∈ (merge_persons mergeDemoDB 1 2).2.marriages,
            pairMatches 1 (if m.person1_id != 2 then m.person1_id
              else m.person2_id) m' = true)
      ∧ RelPairsNodup (merge_persons mergeDemoDB 1 2).2
      ∧ MarPairsNodup (merge_persons mergeDemoDB 1 2).2
      ∧ (∀ r ∈ mergeDemoDB.relationships,
          r ∈ (merge_persons mergeDemoDB 1 2).2.relationships)
      ∧ (∀ m ∈ mergeDemoDB.marriages,
          m ∈ (merge_persons mergeDemoDB 1 2).2.marriages)) :=
  ⟨by decide, by decide, by decide, by decide, by decide,
   C1_amended_merge mergeDemoDB 1 2 mergeDemoKeep mergeDemoDrop (by decide) (by decide)
     (by decide) (by decide) (by decide)⟩

end Genealogy
